import Mathlib

/-!
Verification development for the yugabyte/log_analyzer repository.

This file gives a shallow embedding, in Lean 4, of the core data model and
algorithms of the log analyzer:

* timestamp extraction (`src/lib/log_utils.py`, `getTimeFromLog`),
* per-file metadata construction (`src/lib/log_utils.py`, `getFileMetadata`,
  and `src/services/file_processor.py`, `get_file_metadata`),
* time-window file filtering (`src/lib/analyzer_utils.py`, `analyzeNodeLogs`,
  and `src/services/analysis_service.py`, `_filter_files_by_time`),
* first-match pattern matching and the line-scan statistics loop
  (`src/lib/analyzer_utils.py`, `analyzeNodeLogs`, and
  `src/services/pattern_matcher.py`, `match_line` / `analyze_log_file`),
* the columnar aggregation path (`src/lib/parquet_lib.py`,
  `analyzeParquetFiles`),
* the merge of partial statistics and the result aggregation
  (`src/services/analysis_service.py`, `_analyze_logs`,
  `_analyze_node_logs_worker`).

Python dictionaries keyed by strings are modelled as association lists with
insertion-order update semantics; Python `datetime` values are modelled by an
explicit record of calendar fields; histograms (string-keyed dicts of
positive counts that are only ever incremented or added pointwise) are
modelled as multisets of bucket keys, whose count function is exactly the
dict with missing keys read as 0.
-/

namespace LogAnalyzer

/-! ## Calendar model

A Python `datetime.datetime` value, as a record of its fields.  Comparison of
`datetime` values in Python is lexicographic on these fields.
-/

structure DateTime where
  year : Nat
  month : Nat
  day : Nat
  hour : Nat
  minute : Nat
  second : Nat
  micro : Nat
deriving DecidableEq, Repr

/-- Python `calendar` leap-year rule, used by `datetime` validity checks. -/
def isLeapYear (y : Nat) : Bool :=
  y % 4 = 0 && (y % 100 ≠ 0 || y % 400 = 0)

/-- Number of days in a month of a given year (datetime validity bound). -/
def daysInMonth (y m : Nat) : Nat :=
  if m = 2 then (if isLeapYear y then 29 else 28)
  else if m = 4 ∨ m = 6 ∨ m = 9 ∨ m = 11 then 30
  else 31

/-- Lexicographic comparison of two `DateTime` values, the order Python uses
to compare `datetime` objects. -/
def dtCmp (a b : DateTime) : Ordering :=
  (compare a.year b.year).then <| (compare a.month b.month).then <|
    (compare a.day b.day).then <| (compare a.hour b.hour).then <|
      (compare a.minute b.minute).then <| (compare a.second b.second).then <|
        compare a.micro b.micro

/-- Python `a <= b` on `datetime` values. -/
def dtLe (a b : DateTime) : Bool :=
  dtCmp a b ≠ Ordering.gt

/-- Python `a < b` on `datetime` values. -/
def dtLt (a b : DateTime) : Bool :=
  dtCmp a b = Ordering.lt

/-! ## String-level timestamp parsing

`datetime.strptime` is modelled on its fixed-width zero-padded happy path,
which is the shape `strftime` emits and the shape the log dialects carry:
each `%m`, `%d`, `%H`, `%M`, `%S` field is two digits, `%Y` is four digits,
`%f` is one to six digits.  `strptime` validates field ranges and, for the
year-less format `"%m%d %H:%M"`, checks the day against the default year
1900 (so `"0229"` never parses, 1900 not being a leap year).
-/

/-- Model of Python `line.split(sep)` over characters: split at every
occurrence of the separator, keeping empty fields. -/
def splitChars (sep : Char) : List Char → List (List Char)
  | [] => [[]]
  | c :: rest =>
    match splitChars sep rest with
    | [] => [[c]]
    | g :: gs => if c = sep then [] :: g :: gs else (c :: g) :: gs

/-- Numeric value of a decimal digit character. -/
def digitVal (c : Char) : Option Nat :=
  if c.isDigit then some (c.toNat - 48) else none

/-- Two decimal digit characters as a number. -/
def twoDigits (a b : Char) : Option Nat :=
  match digitVal a, digitVal b with
  | some x, some y => some (10 * x + y)
  | _, _ => none

/-- Four decimal digit characters as a number. -/
def fourDigits (a b c d : Char) : Option Nat :=
  match twoDigits a b, twoDigits c d with
  | some x, some y => some (100 * x + y)
  | _, _ => none

/-- Value of a `%f` microsecond field: one to six digits, right-padded with
zeros to microseconds. -/
def microVal (l : List Char) : Option Nat :=
  if l.length = 0 ∨ 6 < l.length then none
  else if l.all Char.isDigit then
    some ((l.foldl (fun a c => 10 * a + (c.toNat - 48)) 0) * 10 ^ (6 - l.length))
  else none

/-- Model of `datetime.strptime(s, "%m%d %H:%M")` over the characters of
`s`.  The default year is 1900, so the day bound is checked against year
1900; seconds and microseconds default to zero. -/
def parseMMDDHHMMChars (cs : List Char) : Option DateTime :=
  match cs with
  | [m1, m2, d1, d2, sp, h1, h2, co, n1, n2] =>
    if sp = ' ' ∧ co = ':' then
      match twoDigits m1 m2, twoDigits d1 d2, twoDigits h1 h2, twoDigits n1 n2 with
      | some mo, some da, some ho, some mi =>
        if 1 ≤ mo ∧ mo ≤ 12 ∧ 1 ≤ da ∧ da ≤ daysInMonth 1900 mo ∧ ho ≤ 23 ∧ mi ≤ 59 then
          some ⟨1900, mo, da, ho, mi, 0, 0⟩
        else none
      | _, _, _, _ => none
    else none
  | _ => none

/-- Model of `datetime.strptime(s, "%m%d %H:%M")`. -/
def parseMMDDHHMM (s : String) : Option DateTime :=
  parseMMDDHHMMChars s.toList

/-- Model of `datetime.strptime(s, "%Y-%m-%d %H:%M:%S.%f")` over the
characters of `s`. -/
def parseFullTsChars (cs : List Char) : Option DateTime :=
  match cs with
  | y1 :: y2 :: y3 :: y4 :: w1 :: m1 :: m2 :: w2 :: d1 :: d2 :: w3 ::
      h1 :: h2 :: w4 :: n1 :: n2 :: w5 :: s1 :: s2 :: w6 :: rest =>
    if w1 = '-' ∧ w2 = '-' ∧ w3 = ' ' ∧ w4 = ':' ∧ w5 = ':' ∧ w6 = '.' then
      match fourDigits y1 y2 y3 y4, twoDigits m1 m2, twoDigits d1 d2,
          twoDigits h1 h2, twoDigits n1 n2, twoDigits s1 s2, microVal rest with
      | some ye, some mo, some da, some ho, some mi, some se, some mc =>
        if 1 ≤ mo ∧ mo ≤ 12 ∧ 1 ≤ da ∧ da ≤ daysInMonth ye mo ∧ ho ≤ 23 ∧ mi ≤ 59 ∧ se ≤ 59 then
          some ⟨ye, mo, da, ho, mi, se, mc⟩
        else none
      | _, _, _, _, _, _, _ => none
    else none
  | _ => none

/-- Model of `datetime.strptime(s, "%Y-%m-%d %H:%M:%S.%f")`. -/
def parseFullTs (s : String) : Option DateTime :=
  parseFullTsChars s.toList

/-- Character for a decimal digit. -/
def natDigit (n : Nat) : Char :=
  Char.ofNat (48 + n)

/-- Two-digit zero-padded decimal rendering, as `strftime` emits for
`%m`, `%d`, `%H`, `%M`. -/
def pad2 (n : Nat) : List Char :=
  [natDigit (n / 10), natDigit (n % 10)]

/-- Model of `timestamp.strftime("%m%d %H:%M")`. -/
def formatMMDDHHMM (d : DateTime) : String :=
  String.mk (pad2 d.month ++ pad2 d.day ++ (' ' :: (pad2 d.hour ++ (':' :: pad2 d.minute))))

/-- Model of `timestamp.replace(year=y)`: fails (raises `ValueError`) when
the day is out of range for the month in the new year, i.e. exactly for
February 29 moved into a non-leap year. -/
def replaceYear (y : Nat) (d : DateTime) : Option DateTime :=
  if d.day ≤ daysInMonth y d.month then some { d with year := y } else none

/-- Severity letters that open a glog-style line. -/
def sevChars : List Char := ['I', 'W', 'E', 'F']

/-- Body of the `try` block of the glog branch of `getTimeFromLog`
(`src/lib/log_utils.py` lines 98-101): split the line on single spaces,
build `tokens[0][1:] + " " + tokens[1][:5]`, parse it as `"%m%d %H:%M"` and
set the current year.  `none` means the `try` block raised. -/
def glogTry (line : String) (y : Nat) : Option DateTime :=
  match (splitChars ' ' line.toList)[0]?, (splitChars ' ' line.toList)[1]? with
  | some t0, some t1 =>
    match parseMMDDHHMMChars (t0.drop 1 ++ ' ' :: t1.take 5) with
    | some d => replaceYear y d
    | none => none
  | _, _ => none

/-- Body of the `try` block of the full-timestamp branch of `getTimeFromLog`
(`src/lib/log_utils.py` lines 106-111): parse `tokens[0] + " " + tokens[1]`
as `"%Y-%m-%d %H:%M:%S.%f"`, reformat the result with
`strftime("%m%d %H:%M")`, re-parse that string, and set the current year.
`none` means the `try` block raised. -/
def fullTry (line : String) (y : Nat) : Option DateTime :=
  match (splitChars ' ' line.toList)[0]?, (splitChars ' ' line.toList)[1]? with
  | some t0, some t1 =>
    match parseFullTsChars (t0 ++ ' ' :: t1) with
    | some d =>
      match parseMMDDHHMM (formatMMDDHHMM d) with
      | some d2 => replaceYear y d2
      | none => none
    | none => none
  | _, _ => none

/-- The `except` path of `getTimeFromLog`: parse `previousTime` as
`"%m%d %H:%M"` and set the current year.  `none` means even this raised
(`previousTime` is not in `"%m%d %H:%M"` form), which propagates to the
caller. -/
def previousFallback (previousTime : String) (y : Nat) : Option DateTime :=
  match parseMMDDHHMM previousTime with
  | some d => replaceYear y d
  | none => none

/-- Model of `getTimeFromLog(line, previousTime)` from `src/lib/log_utils.py`
lines 96-115, with the wall-clock year `datetime.datetime.now().year` made an
explicit parameter `y`.  `none` models an uncaught exception: `line[0]` on an
empty line raises `IndexError` before any `try` block, and a malformed
`previousTime` raises `ValueError` inside the `except` handler. -/
def getTimeFromLog (line previousTime : String) (y : Nat) : Option DateTime :=
  match line.toList with
  | [] => none
  | c :: _ =>
    if c ∈ sevChars then
      match glogTry line y with
      | some t => some t
      | none => previousFallback previousTime y
    else
      match fullTry line y with
      | some t => some t
      | none => previousFallback previousTime y

/-! ## Generic string-keyed dictionaries

Python `dict[str, V]` with its insertion-order semantics: looking a key up,
setting a present key in place, appending an absent key. -/

/-- Model of `d[k]` / `k in d`. -/
def dictFind {α : Type} : List (String × α) → String → Option α
  | [], _ => none
  | (k, v) :: rest, nm => if k = nm then some v else dictFind rest nm

/-- Model of `d[k] = v`: replace in place when present, append when absent. -/
def dictSet {α : Type} : List (String × α) → String → α → List (String × α)
  | [], nm, v => [(nm, v)]
  | (k, w) :: rest, nm, v => if k = nm then (nm, v) :: rest else (k, w) :: dictSet rest nm v

/-- Shared shape of the two statistics-merging loops
(`src/services/analysis_service.py` lines 232-244 and 293-307): walk the
incoming dict; keys already present are merged in place with `merge`, new
keys are appended. -/
def dictStep {α : Type} (merge : α → α → α) (a : List (String × α)) (kv : String × α) :
    List (String × α) :=
  match dictFind a kv.1 with
  | some es => dictSet a kv.1 (merge es kv.2)
  | none => a ++ [kv]

/-- The whole merging loop, a fold of `dictStep` over the incoming dict. -/
def dictMerge {α : Type} (merge : α → α → α) (acc incoming : List (String × α)) :
    List (String × α) :=
  incoming.foldl (dictStep merge) acc

/-! ## Message statistics over abstract timestamps

For the algebraic and equivalence claims, timestamps are abstracted to
seconds-since-epoch naturals (Python `datetime` values embed
order-faithfully), and a histogram dict `minute_key -> positive count` is
modelled as the multiset of its bucket keys, minute keys being truncated
timestamps. -/

/-- Truncation of a timestamp to its minute,
`timestamp.replace(second=0, microsecond=0)`. -/
def trunc (t : Nat) : Nat := t - t % 60

/-- One `MessageStats` / `LogMessageStats` value: `count`, `StartTime`,
`EndTime` and the per-minute histogram. -/
structure MessageStats where
  count : Nat
  startT : Nat
  endT : Nat
  hist : Multiset Nat
deriving DecidableEq

/-- Merge of two same-key `MessageStats`, `src/services/analysis_service.py`
lines 236-242: counts add, bounds widen, histograms add pointwise. -/
def mergeStats (a b : MessageStats) : MessageStats :=
  { count := a.count + b.count
    startT := min a.startT b.startT
    endT := max a.endT b.endT
    hist := a.hist + b.hist }

/-- The `message_stats` / `log_messages` dictionary of one partition. -/
abbrev Msgs := List (String × MessageStats)

/-! ## Patterns and first-match scanning -/

/-- A named pattern.  `test` abstracts `re.search(pattern, line)` of the
compiled (case-sensitive) expression; `testCI` abstracts the
case-insensitive `REGEXP_MATCHES(message, '(?i)...')` form the columnar
path uses as a prefilter, so `test` implies `testCI` for a real regex. -/
structure Pattern where
  name : String
  test : String → Bool
  testCI : String → Bool

/-- Model of `PatternMatcher.match_line` (`src/services/pattern_matcher.py`
lines 111-127) and of the `for idx, pattern in enumerate(patterns): ...
break` loop of `analyzeNodeLogs` (`src/lib/analyzer_utils.py` lines 75-93):
walk the ordered patterns and return the name of the first whose regex
matches the line. -/
def match_line (patterns : List Pattern) (line : String) : Option String :=
  match patterns with
  | [] => none
  | p :: rest => if p.test line then some p.name else match_line rest line

/-- One already-extracted log record: its timestamp (seconds) and message
text.  For the line-scan path `t` is the full-precision timestamp written in
the line; `getTimeFromLog` only ever surfaces its minute truncation. -/
structure Row where
  t : Nat
  msg : String

/-- Statistics update for one matched line, `src/lib/analyzer_utils.py`
lines 79-92: first match creates the entry with count 1 and bounds at the
line's time, a later match bumps the count and widens the bounds; either way
the line's minute bucket is incremented. -/
def bumpStats (o : Option MessageStats) (t : Nat) : MessageStats :=
  match o with
  | none => { count := 1, startT := t, endT := t, hist := {trunc t} }
  | some s =>
      { count := s.count + 1
        startT := min s.startT t
        endT := max s.endT t
        hist := s.hist + {trunc t} }

/-- Per-line step of the scan loop of `analyzeNodeLogs`
(`src/lib/analyzer_utils.py` lines 70-93) over an already-extracted record:
the line's timestamp as surfaced by `getTimeFromLog` is its minute
truncation; the line is dropped when outside the window, otherwise the first
matching pattern's statistics are updated. -/
def scanStep (ws we : Nat) (patterns : List Pattern) (acc : Msgs) (r : Row) : Msgs :=
  let logTime := trunc r.t
  if ws ≤ logTime ∧ logTime ≤ we then
    match match_line patterns r.msg with
    | some nm => dictSet acc nm (bumpStats (dictFind acc nm) logTime)
    | none => acc
  else acc

/-- The accumulation loop of `analyzeNodeLogs` over one partition's records:
`message_stats` starts empty and every record is folded through `scanStep`. -/
def analyzeRows (ws we : Nat) (patterns : List Pattern) (rows : List Row) : Msgs :=
  rows.foldl (scanStep ws we patterns) []

/-! ## The columnar path, `analyzeParquetFiles` (`src/lib/parquet_lib.py`) -/

/-- The DuckDB `WHERE` prefilter (`src/lib/parquet_lib.py` lines 17-27): a
row is fetched when any pattern matches its message case-insensitively. -/
def parquetKeep (patterns : List Pattern) (r : Row) : Bool :=
  patterns.any (fun p => p.testCI r.msg)

/-- Timestamps collected for one pattern by the row loop of
`analyzeParquetFiles` (lines 38-44): over the fetched rows, every row whose
message matches the pattern (`re.search`, no break — every matching pattern
collects the row) contributes its timestamp, in row order. -/
def parquetTimes (patterns : List Pattern) (rows : List Row) (p : Pattern) : List Nat :=
  (rows.filter (parquetKeep patterns)).filterMap
    (fun r => if p.test r.msg then some r.t else none)

/-- Summary built from one pattern's timestamp list by the
`for pattern_name, timestamps in proc_data.items():` body of
`analyzeParquetFiles` (lines 53-76): no entry when no timestamps were
collected (`if timestamps:`); otherwise the timestamps are sorted
(`times = sorted(timestamps)`; on a linear order any correct sort produces
this list), `StartTime`/`EndTime` are the first and last sorted timestamps
(kept at full precision), `count` is their number, and the histogram counts
minute truncations of the sorted timestamps. -/
def parquetSummary (ts : List Nat) : Option MessageStats :=
  if ts.isEmpty then none
  else
    some
      { count := (ts.insertionSort (fun a b => a ≤ b)).length
        startT := (ts.insertionSort (fun a b => a ≤ b)).headD 0
        endT := (ts.insertionSort (fun a b => a ≤ b)).getLastD 0
        hist := (((ts.insertionSort (fun a b => a ≤ b)).map trunc : List Nat) : Multiset Nat) }

/-- The `log_messages[pattern_name]` entry `analyzeParquetFiles` produces
for one pattern over one (node, processType) group of rows. -/
def parquetStats (patterns : List Pattern) (rows : List Row) (p : Pattern) :
    Option MessageStats :=
  parquetSummary (parquetTimes patterns rows p)

/-! ## Time-window file filters -/

/-- Inclusion condition of the metadata filter inside `analyzeNodeLogs`
(`src/lib/analyzer_utils.py` line 20): one of the file's two bounds lies
inside the window. -/
def analyzerIncludes (ws we s e : Nat) : Bool :=
  (decide (ws ≤ s) && decide (s ≤ we)) || (decide (ws ≤ e) && decide (e ≤ we))

/-- The `filteredLogs` selection of `analyzeNodeLogs` (lines 16-21) over
`(path, (logStartsAt, logEndsAt))` metadata entries. -/
def analyzeNodeLogs_filteredLogs (ws we : Nat) (files : List (String × Nat × Nat)) :
    List String :=
  (files.filter (fun f => analyzerIncludes ws we f.2.1 f.2.2)).map Prod.fst

/-- Inclusion condition of `_filter_files_by_time`
(`src/services/analysis_service.py` line 262): genuine interval overlap,
`file_start <= end_time and file_end >= start_time`. -/
def serviceIncludes (ws we s e : Nat) : Bool :=
  decide (s ≤ we) && decide (ws ≤ e)

/-- Model of `AnalysisService._filter_files_by_time` (lines 248-265). -/
def filter_files_by_time (files : List (String × Nat × Nat)) (ws we : Nat) :
    List String :=
  (files.filter (fun f => serviceIncludes ws we f.2.1 f.2.2)).map Prod.fst

/-! ## Result aggregation (`AnalysisService._analyze_logs`, lines 218-245) -/

/-- One `NodeAnalysisResult`. -/
structure NodeRes where
  node : String
  logType : String
  messages : Msgs
deriving DecidableEq

/-- The `aggregated_results` two-level dict, keyed by (node, logType). -/
abbrev Report := List ((String × String) × Msgs)

/-- Lookup in `aggregated_results[node][log_type]`. -/
def reportLookup : Report → String → String → Option Msgs
  | [], _, _ => none
  | (k, m) :: rest, n, lt => if k = (n, lt) then some m else reportLookup rest n lt

/-- In-place update of `aggregated_results[node][log_type]`. -/
def reportSet : Report → String → String → Msgs → Report
  | [], n, lt, m => [((n, lt), m)]
  | (k, v) :: rest, n, lt, m =>
      if k = (n, lt) then (k, m) :: rest else (k, v) :: reportSet rest n lt m

/-- The per-pattern merge loop of `_analyze_logs` (lines 232-244). -/
def mergeMessages (acc incoming : Msgs) : Msgs :=
  dictMerge mergeStats acc incoming

/-- Fold step of the `for result in results:` aggregation loop (lines
223-244): a `None` worker result is skipped; a first result for a (node,
logType) cell is installed; a later one is merged pattern by pattern. -/
def aggStep (acc : Report) (res : Option NodeRes) : Report :=
  match res with
  | none => acc
  | some r =>
    match reportLookup acc r.node r.logType with
    | none => acc ++ [((r.node, r.logType), r.messages)]
    | some existing => reportSet acc r.node r.logType (mergeMessages existing r.messages)

/-- The whole aggregation of worker results into the final report. -/
def aggregateResults (results : List (Option NodeRes)) : Report :=
  results.foldl aggStep []

/-- Count recorded for a pattern in one partition dict, 0 when absent. -/
def msgsCount (m : Msgs) (nm : String) : Nat :=
  match dictFind m nm with
  | none => 0
  | some s => s.count

/-- Count recorded in the final report for (node, logType, pattern). -/
def reportCount (rep : Report) (n lt nm : String) : Nat :=
  match reportLookup rep n lt with
  | none => 0
  | some m => msgsCount m nm

/-! ## String-level scan loop of `analyzeNodeLogs`

The inner loop of `src/lib/analyzer_utils.py` lines 69-99 at full string
fidelity: per-file state is the `previousTime` string and the growing
`message_stats` dict.  Statistics here carry `DateTime` values and histogram
keys are the formatted minute strings the source uses. -/

/-- Python `min(a, b)` on datetimes (first argument wins ties). -/
def dtMin (a b : DateTime) : DateTime := if dtLt b a then b else a

/-- Python `max(a, b)` on datetimes (first argument wins ties). -/
def dtMax (a b : DateTime) : DateTime := if dtLt a b then b else a

/-- Drop seconds and microseconds,
`logTime.replace(second=0, microsecond=0)`. -/
def truncMin (d : DateTime) : DateTime := { d with second := 0, micro := 0 }

/-- Four-digit zero-padded decimal rendering, as `strftime` emits for `%Y`. -/
def pad4 (n : Nat) : List Char := pad2 (n / 100) ++ pad2 (n % 100)

/-- Model of `strftime('%Y-%m-%dT%H:%M:00Z')`, the histogram bucket key. -/
def isoMinuteKey (d : DateTime) : String :=
  String.mk (pad4 d.year ++ ('-' :: pad2 d.month) ++ ('-' :: pad2 d.day) ++
    ('T' :: pad2 d.hour) ++ (':' :: pad2 d.minute) ++ [':', '0', '0', 'Z'])

/-- `LogMessageStats` over concrete datetimes with string bucket keys. -/
structure LineStats where
  count : Nat
  startT : DateTime
  endT : DateTime
  hist : Multiset String
deriving DecidableEq

/-- Statistics update for one matched line at string fidelity
(`src/lib/analyzer_utils.py` lines 79-92). -/
def bumpLine (o : Option LineStats) (t : DateTime) : LineStats :=
  match o with
  | none => { count := 1, startT := t, endT := t, hist := {isoMinuteKey (truncMin t)} }
  | some s =>
      { count := s.count + 1
        startT := if dtLt t s.startT then t else s.startT
        endT := if dtLt s.endT t then t else s.endT
        hist := s.hist + {isoMinuteKey (truncMin t)} }

/-- Scan state of one file: the carried `previousTime` string and the
accumulated `message_stats`. -/
structure ScanSt where
  prev : String
  stats : List (String × LineStats)

/-- One iteration of `for line in logs:` (`src/lib/analyzer_utils.py` lines
70-99).  A raising `getTimeFromLog` (modelled by `none`) hits the per-line
`except` handler: the line is skipped and `previousTime` keeps its value.
Otherwise `previousTime` is re-formatted from the extracted time, and the
line is window-checked and matched with that time.  The pattern match runs
on the raw line text. -/
def scanLineStep (y : Nat) (ws we : DateTime) (patterns : List Pattern)
    (st : ScanSt) (line : String) : ScanSt :=
  match getTimeFromLog line st.prev y with
  | none => st
  | some logTime =>
    let prev' := formatMMDDHHMM logTime
    if dtLe ws logTime && dtLe logTime we then
      match match_line patterns line with
      | some nm => ⟨prev', dictSet st.stats nm (bumpLine (dictFind st.stats nm) logTime)⟩
      | none => ⟨prev', st.stats⟩
    else ⟨prev', st.stats⟩

/-- Whole-file scan: `previousTime` seeded with `'0101 00:00'` (line 69). -/
def analyzeNodeLogs_scanFile (y : Nat) (ws we : DateTime) (patterns : List Pattern)
    (lines : List String) : ScanSt :=
  lines.foldl (scanLineStep y ws we patterns) ⟨"0101 00:00", []⟩

/-! ## The service scan worker (`src/services/analysis_service.py`,
`src/services/pattern_matcher.py`) -/

/-- Model of `PatternMatcher.analyze_log_file`
(`src/services/pattern_matcher.py` lines 129-206).  Its first statement,
`solution=solution` (line 150), reads the local variable `solution` before
any assignment to it, so every call raises `UnboundLocalError` at function
entry — before the file is opened or any line is read; the rest of the body
(lines 151-206) is unreachable. -/
def analyze_log_file (filePath : String) (patterns : List Pattern)
    (ws we : DateTime) : Except String (List (String × LineStats)) :=
  Except.error "UnboundLocalError: cannot access local variable solution"

/-- Merge of two same-pattern `LogMessageStats` in the worker's per-file
merge loop (`src/services/analysis_service.py` lines 296-305). -/
def mergeLineStats (a b : LineStats) : LineStats :=
  { count := a.count + b.count
    startT := dtMin a.startT b.startT
    endT := dtMax a.endT b.endT
    hist := a.hist + b.hist }

/-- The `for file_path in file_paths:` loop of `_analyze_node_logs_worker`
(lines 285-307): each file's statistics are computed and merged into
`all_message_stats`; an exception escaping `analyze_log_file` aborts the
loop (to be caught by the worker's handler). -/
def workerFiles (patterns : List Pattern) (ws we : DateTime) :
    List String → List (String × LineStats) →
      Except String (List (String × LineStats))
  | [], acc => Except.ok acc
  | f :: rest, acc =>
    match analyze_log_file f patterns ws we with
    | Except.error e => Except.error e
    | Except.ok fileStats => workerFiles patterns ws we rest (dictMerge mergeLineStats acc fileStats)

/-- Model of `AnalysisService._analyze_node_logs_worker` (lines 267-317),
with the pattern set for the task's log type passed in: an empty pattern set
returns `None` with a warning (lines 278-280); any exception inside the task
body is caught and `None` is returned (lines 315-317). -/
def analyze_node_logs_worker (node logType : String) (files : List String)
    (patterns : List Pattern) (ws we : DateTime) :
    Option (String × String × List (String × LineStats)) :=
  if patterns.isEmpty then none
  else
    match workerFiles patterns ws we files [] with
    | Except.ok stats => some (node, logType, stats)
    | Except.error _ => none

/-! ## File metadata builders -/

/-- Character-list version of `str.startswith`. -/
def startsWithChars : List Char → List Char → Bool
  | [], _ => true
  | _ :: _, [] => false
  | p :: ps, c :: cs => p = c && startsWithChars ps cs

/-- Substring test over character lists. -/
def hasInfixChars (pat : List Char) : List Char → Bool
  | [] => startsWithChars pat []
  | c :: t => startsWithChars pat (c :: t) || hasInfixChars pat t

/-- Model of Python `sub in s`. -/
def strContains (s sub : String) : Bool :=
  hasInfixChars sub.toList s.toList

/-- Log type classification of `getFileMetadata` (`src/lib/log_utils.py`
lines 162-173), substring tests against the whole path. -/
def logTypeOf (logFile : String) : String :=
  if strContains logFile "postgres" then "postgres"
  else if strContains logFile "controller" then "yb-controller"
  else if strContains logFile "tserver" then "yb-tserver"
  else if strContains logFile "master" then "yb-master"
  else if strContains logFile "application" then "YBA"
  else "unknown"

/-- Sub-type classification of `getFileMetadata` (lines 176-189). -/
def subTypeOf (logFile : String) : String :=
  if strContains logFile "INFO" then "INFO"
  else if strContains logFile "WARN" then "WARN"
  else if strContains logFile "ERROR" then "ERROR"
  else if strContains logFile "FATAL" then "FATAL"
  else if strContains logFile "postgres" then "INFO"
  else if strContains logFile "application" then "INFO"
  else "unknown"

/-- All characters are decimal digits. -/
def allDigits (l : List Char) : Bool := l.all Char.isDigit

/-- Scan for a split `mid ++ 'n' :: digits` with a nonempty all-digit tail:
the `[^/]*n\d+` part of the node-name regex, anchored at the segment end by
the closing `/`. -/
def nTailDigits : List Char → Bool
  | [] => false
  | c :: rest => (c = 'n' && !rest.isEmpty && allDigits rest) || nTailDigits rest

/-- Segment test for the first node-name alternative `yb-[^/]*n\d+`. -/
def segMatchB1 (seg : List Char) : Bool :=
  startsWithChars ['y', 'b', '-'] seg && nTailDigits (seg.drop 3)

/-- After `yb-master-` / `yb-tserver-`: `\d+_[^/]+` up to the segment end. -/
def digitsUnderscoreTail (l : List Char) : Bool :=
  let ds := l.takeWhile Char.isDigit
  !ds.isEmpty &&
    (match l.drop ds.length with
     | '_' :: r => !r.isEmpty
     | _ => false)

/-- Segment test for the alternative `yb-(master|tserver)-\d+_[^/]+`. -/
def segMatchB2 (seg : List Char) : Bool :=
  (startsWithChars "yb-master-".toList seg && digitsUnderscoreTail (seg.drop 10)) ||
    (startsWithChars "yb-tserver-".toList seg && digitsUnderscoreTail (seg.drop 11))

/-- Tail test `-node-\d+` ending the segment: the third pattern of
`FileProcessor._extract_node_name`. -/
def nodeDigitsEnd (l : List Char) : Bool :=
  startsWithChars "-node-".toList l &&
    (let r := l.drop 6
     !r.isEmpty && allDigits r)

/-- Segment test for `[^/]+-node-\d+` (nonempty head before `-node-`). -/
def segMatchB3 : List Char → Bool
  | [] => false
  | _ :: rest => nodeDigitsEnd rest || segMatchB3 rest

/-- `re.search` for `/(<seg>)/` where `<seg>` is characterised by `m`: find
the earliest `/` followed by a slash-free segment passing `m` and a closing
`/`, and return that segment (the group with its slashes stripped). -/
def findNodeSeg (m : List Char → Bool) : List Char → Option (List Char)
  | [] => none
  | c :: rest =>
    if c = '/' then
      let seg := rest.takeWhile (fun d => d ≠ '/')
      if (rest.drop seg.length).head? = some '/' && m seg then some seg
      else findNodeSeg m rest
    else findNodeSeg m rest

/-- Node-name extraction of `getFileMetadata` (`src/lib/log_utils.py` lines
192-197): one regex with both alternatives, `"unknown"` when absent. -/
def nodeNameOf (logFile : String) : String :=
  match findNodeSeg (fun seg => segMatchB1 seg || segMatchB2 seg) logFile.toList with
  | some seg => String.mk seg
  | none => "unknown"

/-- Default seed for the start bound, `strptime('0101 00:00', '%m%d %H:%M')`. -/
def defaultStart : DateTime := ⟨1900, 1, 1, 0, 0, 0, 0⟩

/-- Default seed for the end bound, `strptime('1231 23:59', '%m%d %H:%M')`. -/
def defaultEnd : DateTime := ⟨1900, 12, 31, 23, 59, 0, 0⟩

/-- The metadata record `getFileMetadata` returns. -/
structure FileMeta where
  logStartsAt : DateTime
  logEndsAt : DateTime
  logType : String
  nodeName : String
  subType : String
deriving DecidableEq, Repr

/-- The two timestamp-probing loops of `getFileMetadata`
(`src/lib/log_utils.py` lines 131-149) over the file's lines (`readline`
returns `''` at end of file).  With the constant fallback `'0101 00:00'`,
`getTimeFromLog` raises only `IndexError`, and only on an empty line, so the
`except ValueError: continue` arms never fire: the first `readline` either
sets `logStartsAt` and breaks, or raises out of the whole `try` block
(leaving both bounds `None`).  The tail loop then walks the last ten of the
remaining lines in reverse; its first line likewise either sets `logEndsAt`
or raises (leaving it `None`). -/
def fileBounds (lines : List String) (y : Nat) : Option DateTime × Option DateTime :=
  match getTimeFromLog (lines.getD 0 "") "0101 00:00" y with
  | none => (none, none)
  | some s =>
    match ((lines.drop 1).reverse.take 10) with
    | [] => (some s, none)
    | l :: _ => (some s, getTimeFromLog l "1231 23:59" y)

/-- Model of `getFileMetadata(logFile, logger)` (`src/lib/log_utils.py`
lines 117-201).  `canOpen` abstracts whether `open`/`gzip.open` succeeds
(lines 119-130, the only `return None` path); `lines` is the file's text.
Unset bounds fall back to the year-extreme defaults (lines 151-154), and
both bounds get the current year (lines 156-157; no value here can be
February 29, so the `replace` never raises). -/
def getFileMetadata (canOpen : Bool) (logFile : String) (lines : List String)
    (y : Nat) : Option FileMeta :=
  if !canOpen then none
  else
    let b := fileBounds lines y
    let s := b.1.getD defaultStart
    let e := b.2.getD defaultEnd
    some
      { logStartsAt := { s with year := y }
        logEndsAt := { e with year := y }
        logType := logTypeOf logFile
        nodeName := nodeNameOf logFile
        subType := subTypeOf logFile }

/-! ## The service metadata builder (`src/services/file_processor.py`) -/

/-- Python `str.split()` with no argument: split on whitespace runs,
dropping empty fields (modelled for space-separated log lines). -/
def pySplitWs (s : String) : List (List Char) :=
  (splitChars ' ' s.toList).filter (fun t => !t.isEmpty)

/-- Model of `FileProcessor._parse_timestamp` /
`PatternMatcher._parse_timestamp` (`src/services/file_processor.py` lines
220-241): glog lines parse as `"%m%d %H:%M"` with the current year set;
other lines parse their first two whitespace tokens as
`"%Y-%m-%d %H:%M:%S.%f"` at full precision; any failure yields `None`. -/
def fp_parse_timestamp (line : String) (y : Nat) : Option DateTime :=
  match line.toList with
  | [] => none
  | c :: _ =>
    if c ∈ sevChars then
      match pySplitWs line with
      | t0 :: t1 :: _ =>
        match parseMMDDHHMMChars (t0.drop 1 ++ ' ' :: t1.take 5) with
        | some d => replaceYear y d
        | none => none
      | _ => none
    else
      match pySplitWs line with
      | t0 :: t1 :: _ => parseFullTsChars (t0 ++ ' ' :: t1)
      | _ => none

/-- Model of `FileProcessor._extract_start_time` (lines 192-205): walk the
lines; return the first parsed timestamp; give up early on an unparseable
line starting with `I`, `W` or `E`; `None` when nothing parses. -/
def fp_extract_start_time : List String → Nat → Option DateTime
  | [], _ => none
  | l :: rest, y =>
    match fp_parse_timestamp l y with
    | some t => some t
    | none =>
      if l.toList.head? = some 'I' ∨ l.toList.head? = some 'W' ∨ l.toList.head? = some 'E' then
        none
      else fp_extract_start_time rest y

/-- First parsed timestamp in a list of lines. -/
def firstParsed : List String → Nat → Option DateTime
  | [], _ => none
  | l :: rest, y =>
    match fp_parse_timestamp l y with
    | some t => some t
    | none => firstParsed rest y

/-- Model of `FileProcessor._extract_end_time` (lines 207-218): the last ten
lines, scanned backwards, first parsed timestamp wins. -/
def fp_extract_end_time (lines : List String) (y : Nat) : Option DateTime :=
  firstParsed (lines.reverse.take 10) y

/-- Node-name extraction of `FileProcessor._extract_node_name` (lines
243-260): the three segment patterns are searched one after another over the
whole path. -/
def fp_node_name (path : String) : String :=
  match findNodeSeg segMatchB1 path.toList with
  | some seg => String.mk seg
  | none =>
    match findNodeSeg segMatchB2 path.toList with
    | some seg => String.mk seg
    | none =>
      match findNodeSeg segMatchB3 path.toList with
      | some seg => String.mk seg
      | none => "unknown"

/-- Sub-type classification of `FileProcessor._extract_sub_type` (lines
279-296): severity names are sought in the upper-cased file name,
`postgres`/`application` in the lower-cased one. -/
def fp_sub_type (fileName : String) : String :=
  let up := String.mk (fileName.toList.map Char.toUpper)
  let low := String.mk (fileName.toList.map Char.toLower)
  if strContains up "INFO" then "INFO"
  else if strContains up "WARN" then "WARN"
  else if strContains up "ERROR" then "ERROR"
  else if strContains up "FATAL" then "FATAL"
  else if strContains low "postgres" then "INFO"
  else if strContains low "application" then "INFO"
  else "unknown"

/-- Model of `FileProcessor.get_file_metadata` (lines 155-190), with
`canRead` abstracting whether the file can be read at all and `fileName` the
path's base name as used by `_extract_log_type` / `_extract_sub_type`.
Unlike `getFileMetadata`, a readable file from which no timestamp can be
parsed returns `None` (lines 170-172); and `LogFileMetadata.__post_init__`
raises on `start_time > end_time`, which the surrounding `except` turns into
`None` as well. -/
def fp_get_file_metadata (canRead : Bool) (path fileName : String)
    (lines : List String) (y : Nat) : Option FileMeta :=
  if !canRead then none
  else
    match fp_extract_start_time lines y, fp_extract_end_time lines y with
    | some s, some e =>
      if dtLe s e then
        some
          { logStartsAt := s
            logEndsAt := e
            logType := logTypeOf (String.mk (fileName.toList.map Char.toLower))
            nodeName := fp_node_name path
            subType := fp_sub_type fileName }
      else none
    | _, _ => none

/-! ## Shared helper lemmas -/

theorem dictFind_dictSet {α : Type} (m : List (String × α)) (k nm : String) (v : α) :
    dictFind (dictSet m k v) nm = if k = nm then some v else dictFind m nm := by
  induction m with
  | nil => simp [dictSet, dictFind]
  | cons kv rest ih =>
    obtain ⟨k', v'⟩ := kv
    by_cases hk : k' = k
    · subst hk
      by_cases h2 : k' = nm <;> simp [dictSet, dictFind, h2]
    · by_cases h2 : k' = nm
      · have hkn : ¬k = nm := fun h => hk (h2.trans h.symm)
        have hnk : ¬nm = k := fun h => hk (h2.trans h)
        simp [dictSet, dictFind, hk, h2, hkn, hnk]
      · simp [dictSet, dictFind, hk, h2, ih]

theorem dictFind_append {α : Type} (a b : List (String × α)) (nm : String) :
    dictFind (a ++ b) nm =
      match dictFind a nm with
      | some v => some v
      | none => dictFind b nm := by
  induction a with
  | nil => simp [dictFind]
  | cons kv rest ih =>
    by_cases h : kv.1 = nm <;> simp [dictFind, h, ih]

/-! ## C4: time-window file filters -/

/-- C4 (amended): the metadata filter of `analyzeNodeLogs` includes a file
exactly when one of its bounds lies inside the window, while
`_filter_files_by_time` uses the genuine overlap test; both agree that
`end = windowStart` is included and `end < windowStart` is excluded, but a
range strictly containing the window is excluded only by the former and
included by the latter. -/
theorem window_filter_semantics (s e ws we : Nat) (hwin : ws ≤ we) (hse : s ≤ e) :
    (analyzerIncludes ws we s e = true ↔ ((ws ≤ s ∧ s ≤ we) ∨ (ws ≤ e ∧ e ≤ we)))
    ∧ (serviceIncludes ws we s e = true ↔ (s ≤ we ∧ ws ≤ e))
    ∧ (e = ws → analyzerIncludes ws we s e = true ∧ serviceIncludes ws we s e = true)
    ∧ (e < ws → analyzerIncludes ws we s e = false ∧ serviceIncludes ws we s e = false)
    ∧ (s < ws → we < e →
        analyzerIncludes ws we s e = false ∧ serviceIncludes ws we s e = true) := by
  refine ⟨?_, ?_, ?_, ?_, ?_⟩ <;>
    simp [analyzerIncludes, serviceIncludes] <;> omega

theorem window_filter_semantics_witness :
    (3 : Nat) ≤ 5 ∧ (0 : Nat) ≤ 10 ∧
      (analyzerIncludes 3 5 0 10 = false ∧ serviceIncludes 3 5 0 10 = true) :=
  ⟨by decide, by decide,
    (window_filter_semantics 0 10 3 5 (by decide) (by decide)).2.2.2.2
      (by decide) (by decide)⟩

/-- C4 (counterexample): a file spanning `[0, 10]` strictly contains the
window `[3, 5]`; neither of its bounds lies inside the window, yet
`_filter_files_by_time` keeps it — the claimed endpoint-membership test does
not describe this filter. -/
theorem filter_files_by_time_containment_cex :
    filter_files_by_time [("f", 0, 10)] 3 5 = ["f"] ∧
      ¬(((3 : Nat) ≤ 0 ∧ (0 : Nat) ≤ 5) ∨ ((3 : Nat) ≤ 10 ∧ (10 : Nat) ≤ 5)) := by
  constructor
  · rfl
  · decide

/-! ## C2: the merge law -/

theorem mergeStats_right_comm (b a₁ a₂ : MessageStats) :
    mergeStats (mergeStats b a₁) a₂ = mergeStats (mergeStats b a₂) a₁ := by
  have hmax : ∀ x y z : Nat, max (max x y) z = max (max x z) y := fun x y z => by
    rw [max_assoc, max_comm y z, ← max_assoc]
  simp only [mergeStats, MessageStats.mk.injEq]
  exact ⟨by omega, min_right_comm _ _ _, hmax _ _ _, add_right_comm _ _ _⟩

instance : RightCommutative mergeStats := ⟨mergeStats_right_comm⟩

/-- C2: the merge of two same-key `MessageStats` adds counts, takes the
widest bounds, and adds histograms pointwise with missing keys read as 0;
the merge is associative and commutative, and therefore any two
permutations of a collection of partial results fold to the same final
statistics, and merging groupwise agrees with merging the concatenation. -/
theorem mergeStats_laws :
    (∀ a b : MessageStats,
      (mergeStats a b).count = a.count + b.count ∧
      (mergeStats a b).startT = min a.startT b.startT ∧
      (mergeStats a b).endT = max a.endT b.endT ∧
      ∀ k, (mergeStats a b).hist.count k = a.hist.count k + b.hist.count k)
    ∧ (∀ a b c, mergeStats (mergeStats a b) c = mergeStats a (mergeStats b c))
    ∧ (∀ a b, mergeStats a b = mergeStats b a)
    ∧ (∀ (init : MessageStats) (l₁ l₂ : List MessageStats), l₁.Perm l₂ →
        l₁.foldl mergeStats init = l₂.foldl mergeStats init)
    ∧ (∀ (init : MessageStats) (l₁ l₂ : List MessageStats),
        (l₁ ++ l₂).foldl mergeStats init = l₂.foldl mergeStats (l₁.foldl mergeStats init)) := by
  refine ⟨?_, ?_, ?_, ?_, ?_⟩
  · intro a b
    exact ⟨rfl, rfl, rfl, fun k => Multiset.count_add k a.hist b.hist⟩
  · intro a b c
    simp only [mergeStats, MessageStats.mk.injEq]
    exact ⟨Nat.add_assoc _ _ _, min_assoc _ _ _, max_assoc _ _ _, add_assoc _ _ _⟩
  · intro a b
    simp only [mergeStats, MessageStats.mk.injEq]
    exact ⟨Nat.add_comm _ _, min_comm _ _, max_comm _ _, add_comm _ _⟩
  · intro init l₁ l₂ h
    exact h.foldl_eq init
  · intro init l₁ l₂
    exact List.foldl_append mergeStats init l₁ l₂

theorem mergeStats_laws_witness :
    ([⟨1, 0, 5, {0}⟩, ⟨2, 3, 9, {0, 5}⟩] : List MessageStats).Perm
        [⟨2, 3, 9, {0, 5}⟩, ⟨1, 0, 5, {0}⟩] ∧
      ([⟨1, 0, 5, {0}⟩, ⟨2, 3, 9, {0, 5}⟩] : List MessageStats).foldl mergeStats ⟨0, 7, 7, 0⟩ =
        ([⟨2, 3, 9, {0, 5}⟩, ⟨1, 0, 5, {0}⟩] : List MessageStats).foldl mergeStats ⟨0, 7, 7, 0⟩ :=
  ⟨by decide,
    mergeStats_laws.2.2.2.1 ⟨0, 7, 7, 0⟩ _ _ (by decide)⟩

/-! ## C5: first-match pattern priority -/

theorem match_line_names (patterns : List Pattern) (line nm : String)
    (h : match_line patterns line = some nm) :
    ∃ p ∈ patterns, p.name = nm ∧ p.test line = true := by
  induction patterns with
  | nil => simp [match_line] at h
  | cons q rest ih =>
    by_cases hq : q.test line
    · simp [match_line, hq] at h
      exact ⟨q, by simp, h, hq⟩
    · simp [match_line, hq] at h
      obtain ⟨p, hp, hnm, ht⟩ := ih h
      exact ⟨p, by simp [hp], hnm, ht⟩

/-- C5: `match_line` returns `some nm` exactly when the pattern list splits
as earlier patterns that all fail on the line, followed by the first
matching pattern, whose name is `nm` — so the line is attributed to the
first matching pattern in pattern order and to no later one — and the scan
loop leaves every other pattern's statistics untouched for that line. -/
theorem match_line_first_match (patterns : List Pattern) (line nm : String) :
    (match_line patterns line = some nm ↔
      ∃ ps₁ p ps₂, patterns = ps₁ ++ p :: ps₂ ∧
        (∀ q ∈ ps₁, q.test line = false) ∧ p.test line = true ∧ nm = p.name)
    ∧ ∀ (ws we : Nat) (acc : Msgs) (r : Row), match_line patterns r.msg ≠ some nm →
        dictFind (scanStep ws we patterns acc r) nm = dictFind acc nm := by
  constructor
  · induction patterns with
    | nil =>
      simp only [match_line]
      constructor
      · intro h; cases h
      · rintro ⟨ps₁, p, ps₂, heq, -, -, -⟩
        exact absurd heq.symm (by simp)
    | cons q rest ih =>
      by_cases hq : q.test line
      · simp only [match_line, hq, if_true]
        constructor
        · intro h
          injection h with h
          exact ⟨[], q, rest, rfl, by simp, hq, h.symm⟩
        · rintro ⟨ps₁, p, ps₂, heq, hfail, htest, hnm⟩
          cases ps₁ with
          | nil =>
            injection heq with h1 h2
            rw [hnm, h1]
          | cons q' ps₁' =>
            injection heq with h1 h2
            have hf := hfail q' (by simp)
            rw [← h1] at hf
            exact absurd hq (by simp [hf])
      · simp only [match_line, hq, if_false, Bool.false_eq_true]
        rw [ih]
        constructor
        · rintro ⟨ps₁, p, ps₂, heq, hfail, htest, hnm⟩
          refine ⟨q :: ps₁, p, ps₂, by rw [heq]; rfl, ?_, htest, hnm⟩
          intro q' hq'
          rcases List.mem_cons.mp hq' with h | h
          · rw [h]
            exact Bool.not_eq_true _ ▸ (by simpa using hq)
          · exact hfail q' h
        · rintro ⟨ps₁, p, ps₂, heq, hfail, htest, hnm⟩
          cases ps₁ with
          | nil =>
            injection heq with h1 h2
            rw [← h1] at htest
            exact absurd htest hq
          | cons q' ps₁' =>
            injection heq with h1 h2
            exact ⟨ps₁', p, ps₂, h2, fun x hx => hfail x (by simp [hx]), htest, hnm⟩
  · intro ws we acc r hne
    simp only [scanStep]
    by_cases hw : ws ≤ trunc r.t ∧ trunc r.t ≤ we
    · rw [if_pos hw]
      cases hml : match_line patterns r.msg with
      | none => rfl
      | some nm' =>
        have hne' : nm' ≠ nm := fun h => hne (h ▸ hml)
        simp [dictFind_dictSet, hne']
    · rw [if_neg hw]

theorem match_line_first_match_witness :
    dictFind
        (scanStep 0 100
          [⟨"ERROR", fun m => strContains m "ERROR", fun m => strContains m "ERROR"⟩,
           ⟨"ERR", fun m => strContains m "ERR", fun m => strContains m "ERR"⟩]
          [] ⟨0, "an ERROR happened"⟩) "ERR" =
      dictFind ([] : Msgs) "ERR" :=
  (match_line_first_match
      [⟨"ERROR", fun m => strContains m "ERROR", fun m => strContains m "ERROR"⟩,
       ⟨"ERR", fun m => strContains m "ERR", fun m => strContains m "ERR"⟩]
      "an ERROR happened" "ERR").2 0 100 [] ⟨0, "an ERROR happened"⟩ (by decide)

/-! ## Aggregation lemmas (for C7 and C9) -/

theorem dictFind_eq_none_of_not_mem {α : Type} (m : List (String × α)) (nm : String)
    (h : nm ∉ m.map Prod.fst) : dictFind m nm = none := by
  induction m with
  | nil => rfl
  | cons kv rest ih =>
    simp only [List.map_cons, List.mem_cons] at h
    push_neg at h
    have : ¬kv.1 = nm := fun he => h.1 he.symm
    simp [dictFind, this, ih h.2]

theorem msgsCount_cons (k : String) (s : MessageStats) (rest : Msgs) (nm : String) :
    msgsCount ((k, s) :: rest) nm = if k = nm then s.count else msgsCount rest nm := by
  by_cases h : k = nm <;> simp [msgsCount, dictFind, h]

theorem msgsCount_dictMerge_step (a : Msgs) (k : String) (s : MessageStats) (nm : String) :
    msgsCount (dictStep mergeStats a (k, s)) nm =
      msgsCount a nm + (if k = nm then s.count else 0) := by
  unfold dictStep
  cases hl : dictFind a k with
  | some es =>
    simp only [msgsCount, dictFind_dictSet]
    by_cases h : k = nm
    · subst h
      simp [hl, mergeStats]
    · simp [h]
  | none =>
    simp only [msgsCount, dictFind_append]
    cases ha : dictFind a nm with
    | some v =>
      have hkn : ¬k = nm := fun he => by rw [he, ha] at hl; cases hl
      simp [hkn]
    | none =>
      by_cases h : k = nm <;> simp [dictFind, h]

theorem msgsCount_mergeMessages (b : Msgs) :
    ∀ a : Msgs, (b.map Prod.fst).Nodup → ∀ nm,
      msgsCount (mergeMessages a b) nm = msgsCount a nm + msgsCount b nm := by
  induction b with
  | nil => intro a _ nm; simp [mergeMessages, dictMerge, msgsCount, dictFind]
  | cons kv rest ih =>
    intro a hnodup nm
    obtain ⟨k, s⟩ := kv
    simp only [List.map_cons, List.nodup_cons] at hnodup
    have hstep : mergeMessages a ((k, s) :: rest) =
        mergeMessages (dictStep mergeStats a (k, s)) rest := by
      simp only [mergeMessages, dictMerge, List.foldl_cons]
    rw [hstep, ih _ hnodup.2 nm, msgsCount_dictMerge_step, msgsCount_cons]
    by_cases h : k = nm
    · subst h
      have : msgsCount rest k = 0 := by
        simp [msgsCount, dictFind_eq_none_of_not_mem rest k hnodup.1]
      simp [this]
    · simp [h]

theorem reportLookup_reportSet (rep : Report) (n lt : String) (m : Msgs) (n' lt' : String) :
    reportLookup (reportSet rep n lt m) n' lt' =
      if (n, lt) = (n', lt') then some m else reportLookup rep n' lt' := by
  induction rep with
  | nil =>
    by_cases h : (n, lt) = (n', lt') <;> simp [reportSet, reportLookup, h]
  | cons kv rest ih =>
    obtain ⟨k, v⟩ := kv
    by_cases hk : k = (n, lt)
    · subst hk
      by_cases h : (n, lt) = (n', lt') <;> simp [reportSet, reportLookup, h]
    · by_cases h2 : k = (n', lt')
      · have hne : ¬(n, lt) = (n', lt') := fun he => hk (h2.trans he.symm)
        simp only [reportSet]
        rw [if_neg hk]
        simp only [reportLookup]
        rw [if_pos h2, if_neg hne, if_pos h2]
      · simp only [reportSet]
        rw [if_neg hk]
        simp only [reportLookup]
        rw [if_neg h2, ih]
        by_cases h3 : (n, lt) = (n', lt')
        · rw [if_pos h3, if_pos h3]
        · rw [if_neg h3, if_neg h3, if_neg h2]

theorem reportLookup_append_one (rep : Report) (key : String × String) (m : Msgs)
    (n lt : String) :
    reportLookup (rep ++ [(key, m)]) n lt =
      match reportLookup rep n lt with
      | some v => some v
      | none => if key = (n, lt) then some m else none := by
  induction rep with
  | nil => simp [reportLookup]
  | cons kv rest ih =>
    by_cases h : kv.1 = (n, lt) <;> simp [reportLookup, h, ih]

theorem reportCount_aggStep (acc : Report) (res : Option NodeRes) (n lt nm : String)
    (hres : ∀ r ∈ res, (r.messages.map Prod.fst).Nodup) :
    reportCount (aggStep acc res) n lt nm =
      reportCount acc n lt nm +
        (match res with
         | none => 0
         | some r => if r.node = n ∧ r.logType = lt then msgsCount r.messages nm else 0) := by
  cases res with
  | none => simp [aggStep]
  | some r =>
    have hnodup : (r.messages.map Prod.fst).Nodup := hres r rfl
    simp only [aggStep]
    cases hl : reportLookup acc r.node r.logType with
    | none =>
      simp only [reportCount, reportLookup_append_one]
      by_cases h : r.node = n ∧ r.logType = lt
      · obtain ⟨h1, h2⟩ := h
        subst h1; subst h2
        simp [hl]
      · have hne : ¬(r.node, r.logType) = (n, lt) := by
          intro he
          exact h ⟨congrArg Prod.fst he, congrArg Prod.snd he⟩
        cases hacc : reportLookup acc n lt <;> simp [hacc, hne, h]
    | some existing =>
      simp only [reportCount, reportLookup_reportSet]
      by_cases h : r.node = n ∧ r.logType = lt
      · obtain ⟨h1, h2⟩ := h
        subst h1; subst h2
        simp [hl, msgsCount_mergeMessages r.messages existing hnodup nm]
      · have hne : ¬(r.node, r.logType) = (n, lt) := by
          intro he
          exact h ⟨congrArg Prod.fst he, congrArg Prod.snd he⟩
        simp [hne, h]

theorem reportCount_foldl (rs : List (Option NodeRes)) :
    ∀ acc : Report, (∀ r ∈ rs.reduceOption, (r.messages.map Prod.fst).Nodup) →
      ∀ n lt nm,
        reportCount (rs.foldl aggStep acc) n lt nm =
          reportCount acc n lt nm +
            ((rs.reduceOption.filter
                (fun r => decide (r.node = n) && decide (r.logType = lt))).map
              (fun r => msgsCount r.messages nm)).sum := by
  induction rs with
  | nil => intro acc _ n lt nm; simp [List.reduceOption]
  | cons res rest ih =>
    intro acc h n lt nm
    cases res with
    | none =>
      have hrest : ∀ r ∈ rest.reduceOption, (r.messages.map Prod.fst).Nodup := by
        intro r hr
        exact h r (by simpa [List.reduceOption] using hr)
      simp only [List.foldl_cons]
      rw [show aggStep acc none = acc from rfl, ih acc hrest n lt nm]
      simp [List.reduceOption]
    | some r =>
      have hmem : r ∈ (some r :: rest).reduceOption := by simp [List.reduceOption]
      have hrest : ∀ x ∈ rest.reduceOption, (x.messages.map Prod.fst).Nodup := by
        intro x hx
        exact h x (by simpa [List.reduceOption] using Or.inr hx)
      simp only [List.foldl_cons]
      rw [ih (aggStep acc (some r)) hrest n lt nm,
        reportCount_aggStep acc (some r) n lt nm (by intro x hx; cases hx; exact h r hmem)]
      simp only [List.reduceOption_cons_of_some]
      by_cases hkey : r.node = n ∧ r.logType = lt
      · have hcond : (decide (r.node = n) && decide (r.logType = lt)) = true := by
          simp [hkey.1, hkey.2]
        rw [List.filter_cons, if_pos hcond, List.map_cons, List.sum_cons, if_pos hkey]
        omega
      · have hcond : ¬(decide (r.node = n) && decide (r.logType = lt)) = true := by
          simp only [Bool.and_eq_true, decide_eq_true_eq]
          exact hkey
        rw [List.filter_cons, if_neg hcond, if_neg hkey]
        omega

theorem foldl_aggStep_skip_none (rs : List (Option NodeRes)) :
    ∀ acc : Report, rs.foldl aggStep acc = (rs.reduceOption.map some).foldl aggStep acc := by
  induction rs with
  | nil => intro acc; simp [List.reduceOption]
  | cons res rest ih =>
    intro acc
    cases res with
    | none => simpa [List.reduceOption] using ih acc
    | some r => simpa [List.reduceOption] using ih (aggStep acc (some r))

/-! ## C7: partial-failure tolerance of the run -/

/-- C7: a worker that raised contributes `None`, which the aggregation loop
skips — the final report equals the aggregation of the successful results
alone — and for every (node, logType, pattern) cell the reported count is
the sum of the counts of all successful results for that cell, whatever the
failed tasks were. -/
theorem worker_failures_do_not_abort (rs : List (Option NodeRes))
    (h : ∀ r ∈ rs.reduceOption, (r.messages.map Prod.fst).Nodup) :
    aggregateResults rs = aggregateResults (rs.reduceOption.map some)
    ∧ ∀ n lt nm,
        reportCount (aggregateResults rs) n lt nm =
          ((rs.reduceOption.filter
              (fun r => decide (r.node = n) && decide (r.logType = lt))).map
            (fun r => msgsCount r.messages nm)).sum := by
  constructor
  · exact foldl_aggStep_skip_none rs []
  · intro n lt nm
    have := reportCount_foldl rs [] h n lt nm
    simpa [reportCount, reportLookup] using this

theorem worker_failures_do_not_abort_witness :
    aggregateResults
        [some ⟨"n1", "yb-tserver", [("p", ⟨2, 0, 60, {0, 60}⟩)]⟩, none,
          some ⟨"n1", "yb-tserver", [("p", ⟨1, 60, 60, {60}⟩)]⟩] =
      aggregateResults
        (([some ⟨"n1", "yb-tserver", [("p", ⟨2, 0, 60, {0, 60}⟩)]⟩, none,
            some ⟨"n1", "yb-tserver", [("p", ⟨1, 60, 60, {60}⟩)]⟩] :
              List (Option NodeRes)).reduceOption.map some) :=
  (worker_failures_do_not_abort
      [some ⟨"n1", "yb-tserver", [("p", ⟨2, 0, 60, {0, 60}⟩)]⟩, none,
        some ⟨"n1", "yb-tserver", [("p", ⟨1, 60, 60, {60}⟩)]⟩]
      (by decide)).1

/-! ## C9: the `solution=solution` crash in `analyze_log_file` -/

/-- C9: `analyze_log_file` raises `UnboundLocalError` from its first
statement for every input — before any line is read — so every dispatched
scan task (which has a nonempty file list, `_analyze_logs` line 193, and
calls `analyze_log_file` on each file) hits the worker's `except` handler
and returns `None`; a run whose results are all `None` aggregates to the
empty report. -/
theorem analyze_log_file_always_raises (node logType : String) (files : List String)
    (patterns : List Pattern) (ws we : DateTime) (hfiles : files ≠ []) :
    (∃ msg, analyze_log_file (files.headD "") patterns ws we = Except.error msg)
    ∧ analyze_node_logs_worker node logType files patterns ws we = none
    ∧ ∀ rs : List (Option NodeRes), (∀ r ∈ rs, r = none) → aggregateResults rs = [] := by
  refine ⟨⟨"UnboundLocalError: cannot access local variable solution", rfl⟩, ?_, ?_⟩
  · unfold analyze_node_logs_worker
    by_cases hp : patterns.isEmpty
    · simp [hp]
    · cases files with
      | nil => exact absurd rfl hfiles
      | cons f rest => simp [hp, workerFiles, analyze_log_file]
  · intro rs hall
    have : ∀ acc : Report, rs.foldl aggStep acc = acc := by
      induction rs with
      | nil => intro acc; rfl
      | cons res rest ih =>
        intro acc
        have hres : res = none := hall res (by simp)
        have hrest : ∀ r ∈ rest, r = none := fun r hr => hall r (by simp [hr])
        subst hres
        simp only [List.foldl_cons]
        exact (by simpa using ih hrest acc :)
    exact this []

theorem analyze_log_file_always_raises_witness :
    (["f1"] : List String) ≠ [] ∧
      analyze_node_logs_worker "n1" "yb-tserver" ["f1"]
          [⟨"p", fun _ => true, fun _ => true⟩] defaultStart defaultEnd = none :=
  ⟨by decide,
    (analyze_log_file_always_raises "n1" "yb-tserver" ["f1"]
        [⟨"p", fun _ => true, fun _ => true⟩] defaultStart defaultEnd (by decide)).2.1⟩

/-! ## C8: count / histogram consistency -/

/-- The invariant `count == sum(histogram.values())`: in the multiset view,
the sum of a histogram's values is the multiset's cardinality. -/
def statsInv (m : Msgs) : Prop :=
  ∀ nm s, dictFind m nm = some s → s.count = Multiset.card s.hist

theorem statsInv_scanStep (ws we : Nat) (patterns : List Pattern) (acc : Msgs) (r : Row)
    (h : statsInv acc) : statsInv (scanStep ws we patterns acc r) := by
  simp only [scanStep]
  by_cases hw : ws ≤ trunc r.t ∧ trunc r.t ≤ we
  · rw [if_pos hw]
    cases hml : match_line patterns r.msg with
    | none => exact h
    | some nm' =>
      intro nm s hfind
      rw [dictFind_dictSet] at hfind
      by_cases he : nm' = nm
      · rw [if_pos he] at hfind
        injection hfind with hfind
        subst hfind
        cases hacc : dictFind acc nm' with
        | none => simp [bumpStats]
        | some s0 =>
          have := h nm' s0 hacc
          simp [bumpStats, hacc, this]
      · rw [if_neg he] at hfind
        exact h nm s hfind
  · rw [if_neg hw]
    exact h

theorem statsInv_analyzeRows (rows : List Row) (ws we : Nat) (patterns : List Pattern) :
    statsInv (analyzeRows ws we patterns rows) := by
  have hgen : ∀ acc : Msgs, statsInv acc → statsInv (rows.foldl (scanStep ws we patterns) acc) := by
    induction rows with
    | nil => intro acc h; exact h
    | cons r rest ih =>
      intro acc h
      exact ih _ (statsInv_scanStep ws we patterns acc r h)
  exact hgen [] (by intro nm s h; cases h)

/-- C8: in every statistics dict the scan loop produces, each entry's count
equals the total of its histogram (the histogram multiset's cardinality);
the per-line update preserves this invariant, and so does the merge of two
partial statistics. -/
theorem count_histogram_consistency :
    (∀ (rows : List Row) (ws we : Nat) (patterns : List Pattern) (nm : String)
        (s : MessageStats),
      dictFind (analyzeRows ws we patterns rows) nm = some s →
        s.count = Multiset.card s.hist)
    ∧ (∀ (ws we : Nat) (patterns : List Pattern) (acc : Msgs) (r : Row),
        statsInv acc → statsInv (scanStep ws we patterns acc r))
    ∧ (∀ a b : MessageStats, a.count = Multiset.card a.hist →
        b.count = Multiset.card b.hist →
        (mergeStats a b).count = Multiset.card (mergeStats a b).hist) := by
  refine ⟨?_, statsInv_scanStep, ?_⟩
  · intro rows ws we patterns nm s h
    exact statsInv_analyzeRows rows ws we patterns nm s h
  · intro a b ha hb
    simp [mergeStats, ha, hb]

theorem count_histogram_consistency_witness :
    (⟨2, 0, 60, {0, 60}⟩ : MessageStats).count =
      Multiset.card (⟨2, 0, 60, {0, 60}⟩ : MessageStats).hist :=
  count_histogram_consistency.1
    [⟨30, "an ERROR here"⟩, ⟨70, "ERROR again"⟩] 0 120
    [⟨"ERROR", fun m => strContains m "ERROR", fun m => strContains m "ERROR"⟩]
    "ERROR" ⟨2, 0, 60, {0, 60}⟩ (by decide)

/-! ## Parsing lemmas (for C3, C6 and C10) -/

theorem toList_eq_nil {s : String} (h : s.toList = []) : s = "" := by
  cases s with
  | mk data =>
    cases data with
    | nil => rfl
    | cons c cs => exact absurd h (by simp [String.toList])

theorem parseMMDDHHMMChars_props (cs : List Char) (p : DateTime)
    (h : parseMMDDHHMMChars cs = some p) :
    p.year = 1900 ∧ 1 ≤ p.month ∧ p.month ≤ 12 ∧ 1 ≤ p.day ∧
      p.day ≤ daysInMonth 1900 p.month ∧ p.hour ≤ 23 ∧ p.minute ≤ 59 ∧
      p.second = 0 ∧ p.micro = 0 := by
  unfold parseMMDDHHMMChars at h
  split at h
  · split at h
    · split at h
      · split at h
        · rename_i hcond
          injection h with h
          subst h
          obtain ⟨h1, h2, h3, h4, h5, h6⟩ := hcond
          exact ⟨rfl, h1, h2, h3, h4, h5, h6, rfl, rfl⟩
        · cases h
      · cases h
    · cases h
  · cases h

theorem parseFullTsChars_props (cs : List Char) (d : DateTime)
    (h : parseFullTsChars cs = some d) :
    1 ≤ d.month ∧ d.month ≤ 12 ∧ 1 ≤ d.day ∧ d.day ≤ daysInMonth d.year d.month ∧
      d.hour ≤ 23 ∧ d.minute ≤ 59 := by
  unfold parseFullTsChars at h
  split at h
  · split at h
    · split at h
      · split at h
        · rename_i hcond
          injection h with h
          subst h
          obtain ⟨h1, h2, h3, h4, h5, h6, h7⟩ := hcond
          exact ⟨h1, h2, h3, h4, h5, h6⟩
        · cases h
      · cases h
    · cases h
  · cases h

theorem daysInMonth_le_31 (y m : Nat) : daysInMonth y m ≤ 31 := by
  unfold daysInMonth
  split
  · split <;> omega
  · split <;> omega

theorem daysInMonth_1900_le (y m : Nat) : daysInMonth 1900 m ≤ daysInMonth y m := by
  unfold daysInMonth
  by_cases hm : m = 2
  · rw [if_pos hm, if_pos hm, if_neg (by decide : ¬(isLeapYear 1900 = true))]
    by_cases hy : isLeapYear y = true
    · rw [if_pos hy]
      omega
    · rw [if_neg hy]
  · rw [if_neg hm, if_neg hm]

theorem previousFallback_eq (prev : String) (y : Nat) (p : DateTime)
    (hp : parseMMDDHHMM prev = some p) :
    previousFallback prev y = some { p with year := y } := by
  have hprops := parseMMDDHHMMChars_props prev.toList p hp
  unfold previousFallback
  rw [hp]
  show replaceYear y p = some { p with year := y }
  unfold replaceYear
  rw [if_pos (le_trans hprops.2.2.2.2.1 (daysInMonth_1900_le y p.month))]

/-- The line's head character exists and is not a glog severity letter
(the line takes the full-timestamp branch of `getTimeFromLog`). -/
def headNotSev (line : String) : Bool :=
  match line.toList with
  | [] => false
  | c :: _ => !(decide (c ∈ sevChars))

/-- The `try` block of whichever `getTimeFromLog` branch the line selects
raised, i.e. no timestamp can be parsed out of the line itself and the
`except` fallback to `previousTime` runs. -/
def dialectFails (line : String) (y : Nat) : Bool :=
  match line.toList with
  | [] => false
  | c :: _ => if c ∈ sevChars then (glogTry line y).isNone else (fullTry line y).isNone

theorem getTimeFromLog_cons (line prev : String) (y : Nat) (c : Char) (cs : List Char)
    (hcs : line.toList = c :: cs) :
    getTimeFromLog line prev y =
      (if c ∈ sevChars then
        match glogTry line y with
        | some t => some t
        | none => previousFallback prev y
      else
        match fullTry line y with
        | some t => some t
        | none => previousFallback prev y) := by
  unfold getTimeFromLog
  rw [hcs]

theorem dialectFails_cons (line : String) (y : Nat) (c : Char) (cs : List Char)
    (hcs : line.toList = c :: cs) :
    dialectFails line y =
      if c ∈ sevChars then (glogTry line y).isNone else (fullTry line y).isNone := by
  unfold dialectFails
  rw [hcs]

theorem getTimeFromLog_some (line prev : String) (y : Nat) (p : DateTime)
    (hl : line.toList ≠ []) (hp : parseMMDDHHMM prev = some p) :
    ∃ t, getTimeFromLog line prev y = some t := by
  cases hcs : line.toList with
  | nil => exact absurd hcs hl
  | cons c cs =>
    rw [getTimeFromLog_cons line prev y c cs hcs]
    by_cases hsev : c ∈ sevChars
    · rw [if_pos hsev]
      cases hg : glogTry line y with
      | some t => exact ⟨t, rfl⟩
      | none => exact ⟨_, previousFallback_eq prev y p hp⟩
    · rw [if_neg hsev]
      cases hg : fullTry line y with
      | some t => exact ⟨t, rfl⟩
      | none => exact ⟨_, previousFallback_eq prev y p hp⟩

theorem getTimeFromLog_of_dialectFails (line prev : String) (y : Nat) (p : DateTime)
    (hf : dialectFails line y = true) (hp : parseMMDDHHMM prev = some p) :
    getTimeFromLog line prev y = some { p with year := y } := by
  cases hcs : line.toList with
  | nil =>
    rw [show dialectFails line y = false from by unfold dialectFails; rw [hcs]] at hf
    cases hf
  | cons c cs =>
    rw [dialectFails_cons line y c cs hcs] at hf
    rw [getTimeFromLog_cons line prev y c cs hcs]
    by_cases hsev : c ∈ sevChars
    · rw [if_pos hsev] at hf ⊢
      rw [Option.isNone_iff_eq_none] at hf
      rw [hf]
      exact previousFallback_eq prev y p hp
    · rw [if_neg hsev] at hf ⊢
      rw [Option.isNone_iff_eq_none] at hf
      rw [hf]
      exact previousFallback_eq prev y p hp

/-! ## C3: timestamp extraction never fails, falling back to `previousTime` -/

/-- C3 (amended): for a nonempty line and a well-formed `previousTime`, the
extraction always returns a timestamp; when the line's own dialect parse
fails, the result is exactly `previousTime`'s timestamp with the current
year set; and the scan loop then window-checks and pattern-matches such a
line with that carried-forward timestamp instead of dropping it. -/
theorem timestamp_extraction_fallback (line prev : String) (y : Nat) (p : DateTime)
    (hline : line ≠ "") (hprev : parseMMDDHHMM prev = some p) :
    (∃ t, getTimeFromLog line prev y = some t)
    ∧ (dialectFails line y = true →
        getTimeFromLog line prev y = some { p with year := y })
    ∧ (∀ (ws we : DateTime) (patterns : List Pattern) (st : ScanSt),
        st.prev = prev → dialectFails line y = true →
        scanLineStep y ws we patterns st line =
          (let logTime : DateTime := { p with year := y }
           let prev' := formatMMDDHHMM logTime
           if dtLe ws logTime && dtLe logTime we then
             match match_line patterns line with
             | some nm =>
                 ⟨prev', dictSet st.stats nm (bumpLine (dictFind st.stats nm) logTime)⟩
             | none => ⟨prev', st.stats⟩
           else ⟨prev', st.stats⟩)) := by
  have hl : line.toList ≠ [] := fun h => hline (toList_eq_nil h)
  refine ⟨getTimeFromLog_some line prev y p hl hprev, ?_, ?_⟩
  · intro hf
    exact getTimeFromLog_of_dialectFails line prev y p hf hprev
  · intro ws we patterns st hst hf
    unfold scanLineStep
    rw [hst, getTimeFromLog_of_dialectFails line prev y p hf hprev]

theorem timestamp_extraction_fallback_witness :
    ("garbage text no timestamp" : String) ≠ "" ∧
      getTimeFromLog "garbage text no timestamp" "0601 10:00" 2024 =
        some ⟨2024, 6, 1, 10, 0, 0, 0⟩ :=
  ⟨by decide,
    (timestamp_extraction_fallback "garbage text no timestamp" "0601 10:00" 2024
        ⟨1900, 6, 1, 10, 0, 0, 0⟩ (by decide) (by decide)).2.1 (by decide)⟩

/-- C3 (counterexample): extraction is not total.  On the empty line,
`line[0]` raises `IndexError` before any `try` block, so `getTimeFromLog`
fails instead of returning the (perfectly well-formed) previous timestamp;
and a malformed `previousTime` makes even the `except` handler raise. -/
theorem getTimeFromLog_empty_line_cex :
    getTimeFromLog "" "0601 10:00" 2024 = none ∧
      parseMMDDHHMM "0601 10:00" = some ⟨1900, 6, 1, 10, 0, 0, 0⟩ ∧
      getTimeFromLog "garbage" "not a timestamp" 2024 = none := by
  refine ⟨by decide, by decide, by decide⟩

/-! ## C10: the full-timestamp dialect is truncated to the minute and
re-dated to the current year -/

theorem digitVal_natDigit (k : Nat) (h : k ≤ 9) : digitVal (natDigit k) = some k := by
  interval_cases k <;> decide

theorem twoDigits_natDigits (n : Nat) (h : n ≤ 99) :
    twoDigits (natDigit (n / 10)) (natDigit (n % 10)) = some n := by
  unfold twoDigits
  rw [digitVal_natDigit _ (by omega), digitVal_natDigit _ (by omega)]
  exact congrArg some (by omega)

theorem parse_format_roundtrip (d : DateTime) (h1 : 1 ≤ d.month) (h2 : d.month ≤ 12)
    (h3 : 1 ≤ d.day) (h4 : d.day ≤ 99) (h5 : d.hour ≤ 23) (h6 : d.minute ≤ 59) :
    parseMMDDHHMM (formatMMDDHHMM d) =
      if d.day ≤ daysInMonth 1900 d.month then
        some ⟨1900, d.month, d.day, d.hour, d.minute, 0, 0⟩
      else none := by
  have hform : (formatMMDDHHMM d).toList =
      [natDigit (d.month / 10), natDigit (d.month % 10), natDigit (d.day / 10),
        natDigit (d.day % 10), ' ', natDigit (d.hour / 10), natDigit (d.hour % 10),
        ':', natDigit (d.minute / 10), natDigit (d.minute % 10)] := rfl
  unfold parseMMDDHHMM parseMMDDHHMMChars
  rw [hform]
  show (if (' ' = ' ' ∧ ':' = ':') then
      match twoDigits (natDigit (d.month / 10)) (natDigit (d.month % 10)),
        twoDigits (natDigit (d.day / 10)) (natDigit (d.day % 10)),
        twoDigits (natDigit (d.hour / 10)) (natDigit (d.hour % 10)),
        twoDigits (natDigit (d.minute / 10)) (natDigit (d.minute % 10)) with
      | some mo, some da, some ho, some mi =>
        if 1 ≤ mo ∧ mo ≤ 12 ∧ 1 ≤ da ∧ da ≤ daysInMonth 1900 mo ∧ ho ≤ 23 ∧ mi ≤ 59 then
          some (⟨1900, mo, da, ho, mi, 0, 0⟩ : DateTime)
        else none
      | _, _, _, _ => none
    else none) = _
  rw [if_pos ⟨rfl, rfl⟩]
  rw [twoDigits_natDigits d.month (by omega), twoDigits_natDigits d.day (by omega),
    twoDigits_natDigits d.hour (by omega), twoDigits_natDigits d.minute (by omega)]
  show (if 1 ≤ d.month ∧ d.month ≤ 12 ∧ 1 ≤ d.day ∧ d.day ≤ daysInMonth 1900 d.month ∧
        d.hour ≤ 23 ∧ d.minute ≤ 59 then
      some (⟨1900, d.month, d.day, d.hour, d.minute, 0, 0⟩ : DateTime)
    else none) = _
  by_cases hday : d.day ≤ daysInMonth 1900 d.month
  · rw [if_pos ⟨h1, h2, h3, hday, h5, h6⟩, if_pos hday]
  · rw [if_neg (fun hc => hday hc.2.2.2.1), if_neg hday]

/-- C10: on a full-format line (dialect (b)), `getTimeFromLog` reformats the
parsed timestamp to `MMDD HH:MM`, re-parses it and sets the current year —
so the returned timestamp always has zero seconds and microseconds and the
current year, whatever year, seconds and microseconds the line carries; when
the re-parse accepts the month/day (every case except February 29), the
month, day, hour and minute of the line are preserved. -/
theorem getTimeFromLog_full_truncates (line prev : String) (t0 t1 : List Char)
    (y : Nat) (d p : DateTime)
    (hns : headNotSev line = true)
    (ht0 : (splitChars ' ' line.toList)[0]? = some t0)
    (ht1 : (splitChars ' ' line.toList)[1]? = some t1)
    (hfull : parseFullTsChars (t0 ++ ' ' :: t1) = some d)
    (hprev : parseMMDDHHMM prev = some p) :
    ∃ t, getTimeFromLog line prev y = some t ∧
      t.second = 0 ∧ t.micro = 0 ∧ t.year = y ∧
      (d.day ≤ daysInMonth 1900 d.month →
        t = ⟨y, d.month, d.day, d.hour, d.minute, 0, 0⟩) := by
  obtain ⟨hm1, hm2, hd1, hd2, hh, hmi⟩ := parseFullTsChars_props _ _ hfull
  have hd99 : d.day ≤ 99 := le_trans hd2 (le_trans (daysInMonth_le_31 _ _) (by omega))
  cases hcs : line.toList with
  | nil =>
    rw [show headNotSev line = false from by unfold headNotSev; rw [hcs]] at hns
    cases hns
  | cons c cs =>
    rw [show headNotSev line = !(decide (c ∈ sevChars)) from by
      unfold headNotSev; rw [hcs]] at hns
    have hsev : ¬c ∈ sevChars := by simpa using hns
    rw [getTimeFromLog_cons line prev y c cs hcs, if_neg hsev]
    have hft : fullTry line y =
        match parseMMDDHHMM (formatMMDDHHMM d) with
        | some d2 => replaceYear y d2
        | none => none := by
      unfold fullTry
      rw [ht0, ht1]
      show (match parseFullTsChars (t0 ++ ' ' :: t1) with
        | some d =>
          match parseMMDDHHMM (formatMMDDHHMM d) with
          | some d2 => replaceYear y d2
          | none => none
        | none => none) = _
      rw [hfull]
    by_cases hday : d.day ≤ daysInMonth 1900 d.month
    · have : fullTry line y = some ⟨y, d.month, d.day, d.hour, d.minute, 0, 0⟩ := by
        rw [hft, parse_format_roundtrip d hm1 hm2 hd1 hd99 hh hmi, if_pos hday]
        show replaceYear y ⟨1900, d.month, d.day, d.hour, d.minute, 0, 0⟩ = _
        unfold replaceYear
        rw [if_pos (le_trans hday (daysInMonth_1900_le y d.month))]
      rw [this]
      exact ⟨_, rfl, rfl, rfl, rfl, fun _ => rfl⟩
    · have : fullTry line y = none := by
        rw [hft, parse_format_roundtrip d hm1 hm2 hd1 hd99 hh hmi, if_neg hday]
      rw [this]
      obtain ⟨-, -, -, -, -, -, -, hsec, hmic⟩ := parseMMDDHHMMChars_props prev.toList p hprev
      refine ⟨_, previousFallback_eq prev y p hprev, hsec, hmic, rfl, ?_⟩
      intro hc
      exact absurd hc hday

theorem getTimeFromLog_full_truncates_witness :
    ∃ t, getTimeFromLog "2024-06-01 10:20:45.123456 stuff happened" "0101 00:00" 2025 =
        some t ∧
      t.second = 0 ∧ t.micro = 0 ∧ t.year = 2025 ∧
      ((6 : Nat) + 0 ≤ daysInMonth 1900 6 →
        t = ⟨2025, 6, 1, 10, 20, 0, 0⟩) := by
  have h := getTimeFromLog_full_truncates "2024-06-01 10:20:45.123456 stuff happened"
    "0101 00:00" "2024-06-01".toList "10:20:45.123456".toList 2025
    ⟨2024, 6, 1, 10, 20, 45, 123456⟩ ⟨1900, 1, 1, 0, 0, 0, 0⟩
    (by decide) (by decide) (by decide) (by decide) (by decide)
  obtain ⟨t, h1, h2, h3, h4, h5⟩ := h
  exact ⟨t, h1, h2, h3, h4, fun _ => h5 (by decide)⟩

/-! ## C6: the file metadata builders -/

theorem getTimeFromLog_nil (line prev : String) (y : Nat) (hcs : line.toList = []) :
    getTimeFromLog line prev y = none := by
  unfold getTimeFromLog
  rw [hcs]

theorem getTimeFromLog_unparsed (l prev : String) (y : Nat) (p : DateTime)
    (hp : parseMMDDHHMM prev = some p) (hl : l = "" ∨ dialectFails l y = true) :
    getTimeFromLog l prev y = none ∨ getTimeFromLog l prev y = some { p with year := y } := by
  cases hl with
  | inl h => exact Or.inl (getTimeFromLog_nil l prev y (by rw [h]; rfl))
  | inr h => exact Or.inr (getTimeFromLog_of_dialectFails l prev y p h hp)

theorem hp_start : parseMMDDHHMM "0101 00:00" = some defaultStart := by decide

theorem hp_end : parseMMDDHHMM "1231 23:59" = some defaultEnd := by decide

/-- C6 (amended): the legacy builder `getFileMetadata` returns a metadata
record for every file it can open; a file in which no line carries a
parseable timestamp (each line empty or failing both dialects) yields
exactly the default year-extreme bounds, re-dated to the current year, so
such a file is never dropped.  (The claim fails for the service builder
`FileProcessor.get_file_metadata` — see the counterexample.) -/
theorem getFileMetadata_opened (logFile : String) (lines : List String) (y : Nat)
    (hnoparse : ∀ l ∈ lines, l = "" ∨ dialectFails l y = true) :
    (∀ (f : String) (ls : List String), (getFileMetadata true f ls y).isSome = true)
    ∧ getFileMetadata true logFile lines y =
        some ⟨⟨y, 1, 1, 0, 0, 0, 0⟩, ⟨y, 12, 31, 23, 59, 0, 0⟩,
          logTypeOf logFile, nodeNameOf logFile, subTypeOf logFile⟩ := by
  constructor
  · intro f ls
    simp [getFileMetadata]
  · have hmain : ∀ s e,
        fileBounds lines y = (s, e) →
        (s = none ∨ s = some ⟨y, 1, 1, 0, 0, 0, 0⟩) ∧
          (e = none ∨ e = some ⟨y, 12, 31, 23, 59, 0, 0⟩) := by
      intro s e hb
      cases lines with
      | nil =>
        unfold fileBounds at hb
        rw [show (([] : List String).getD 0 "") = "" from rfl,
          getTimeFromLog_nil "" "0101 00:00" y rfl] at hb
        injection hb with h1 h2
        exact ⟨Or.inl h1.symm, Or.inl h2.symm⟩
      | cons l0 rest =>
        unfold fileBounds at hb
        rw [show ((l0 :: rest).getD 0 "") = l0 from rfl] at hb
        rcases getTimeFromLog_unparsed l0 "0101 00:00" y defaultStart hp_start
            (hnoparse l0 (by simp)) with h0 | h0
        · rw [h0] at hb
          injection hb with h1 h2
          exact ⟨Or.inl h1.symm, Or.inl h2.symm⟩
        · rw [h0] at hb
          rw [show ((l0 :: rest).drop 1) = rest from rfl] at hb
          cases hrev : rest.reverse.take 10 with
          | nil =>
            rw [hrev] at hb
            injection hb with h1 h2
            refine ⟨Or.inr ?_, Or.inl h2.symm⟩
            rw [← h1]
            rfl
          | cons l1 t =>
            rw [hrev] at hb
            have hb' : ((some ({ defaultStart with year := y } : DateTime) : Option DateTime),
                getTimeFromLog l1 "1231 23:59" y) = (s, e) := hb
            injection hb' with hb1 hb2
            have hl1 : l1 ∈ rest := by
              have : l1 ∈ rest.reverse.take 10 := by rw [hrev]; simp
              exact List.mem_reverse.mp (List.mem_of_mem_take this)
            rcases getTimeFromLog_unparsed l1 "1231 23:59" y defaultEnd hp_end
                (hnoparse l1 (by simp [hl1])) with h1 | h1
            · refine ⟨Or.inr ?_, Or.inl ?_⟩
              · rw [← hb1]
                rfl
              · rw [← hb2, h1]
            · refine ⟨Or.inr ?_, Or.inr ?_⟩
              · rw [← hb1]
                rfl
              · rw [← hb2, h1]
                rfl
    obtain ⟨hs, he⟩ := hmain (fileBounds lines y).1 (fileBounds lines y).2 rfl
    simp only [getFileMetadata, Bool.not_true]
    rw [if_neg (by simp)]
    rcases hs with hs | hs <;> rcases he with he | he <;>
      rw [hs, he] <;> rfl

theorem getFileMetadata_opened_witness :
    getFileMetadata true "/a/yb-node-n1/postgres.log" ["garbage text no timestamp"] 2024 =
      some ⟨⟨2024, 1, 1, 0, 0, 0, 0⟩, ⟨2024, 12, 31, 23, 59, 0, 0⟩,
        logTypeOf "/a/yb-node-n1/postgres.log", nodeNameOf "/a/yb-node-n1/postgres.log",
        subTypeOf "/a/yb-node-n1/postgres.log"⟩ :=
  (getFileMetadata_opened "/a/yb-node-n1/postgres.log" ["garbage text no timestamp"] 2024
      (by decide)).2

/-- C6 (counterexample): the service builder `FileProcessor.get_file_metadata`
returns `None` for a perfectly readable file from which no timestamp can be
parsed — the claimed "null only when the file cannot be opened" does not
describe it — while the legacy `getFileMetadata` keeps the file with default
bounds. -/
theorem fp_get_file_metadata_unparsed_cex :
    fp_get_file_metadata true "/a/b/postgres.log" "postgres.log"
        ["garbage text no timestamp"] 2024 = none ∧
      getFileMetadata true "/a/b/postgres.log" ["garbage text no timestamp"] 2024 ≠ none := by
  exact ⟨by decide, by decide⟩

/-! ## C1: columnar / line-scan equivalence

The plan: characterise what the scan loop records for one pattern as a fold
over the list of (truncated, in-window, first-match) timestamps, characterise
the columnar summary as the same canonical summary of its per-pattern
timestamp list, and show the two timestamp lists coincide under the
equivalence hypotheses. -/

theorem trunc_eq_self {t : Nat} (h : t % 60 = 0) : trunc t = t := by
  unfold trunc
  omega

/-- Fold of per-line statistics updates over a list of timestamps. -/
def bumpFold (o : Option MessageStats) (ts : List Nat) : Option MessageStats :=
  ts.foldl (fun o t => some (bumpStats o t)) o

/-- Canonical summary of a nonempty timestamp list: its length, minimum,
maximum and the multiset of minute truncations. -/
def statsOfTimes : List Nat → Option MessageStats
  | [] => none
  | t :: ts =>
    some
      { count := ts.length + 1
        startT := ts.foldl min t
        endT := ts.foldl max t
        hist := (((t :: ts).map trunc : List Nat) : Multiset Nat) }

theorem bumpFold_some (ts : List Nat) : ∀ s : MessageStats,
    bumpFold (some s) ts =
      some
        { count := s.count + ts.length
          startT := ts.foldl min s.startT
          endT := ts.foldl max s.endT
          hist := s.hist + ((ts.map trunc : List Nat) : Multiset Nat) } := by
  induction ts with
  | nil =>
    intro s
    simp [bumpFold]
  | cons t ts ih =>
    intro s
    have hstep : bumpFold (some s) (t :: ts) =
        bumpFold (some (bumpStats (some s) t)) ts := rfl
    rw [hstep, ih]
    simp only [bumpStats, Option.some.injEq, MessageStats.mk.injEq, List.map_cons,
      List.length_cons, List.foldl_cons]
    refine ⟨by omega, trivial, trivial, ?_⟩
    rw [add_assoc, Multiset.singleton_add, Multiset.cons_coe]

theorem bumpFold_none (ts : List Nat) : bumpFold none ts = statsOfTimes ts := by
  cases ts with
  | nil => rfl
  | cons t ts =>
    have hstep : bumpFold none (t :: ts) =
        bumpFold (some { count := 1, startT := t, endT := t, hist := {trunc t} }) ts := rfl
    rw [hstep, bumpFold_some]
    simp only [statsOfTimes, Option.some.injEq, MessageStats.mk.injEq, List.map_cons]
    refine ⟨by omega, trivial, trivial, ?_⟩
    rw [Multiset.singleton_add, Multiset.cons_coe]

/-- The timestamps the scan loop books under pattern name `nm`: minute
truncations of the rows that pass the window check and whose first matching
pattern is named `nm`. -/
def scanTimes (ws we : Nat) (patterns : List Pattern) (nm : String) (rows : List Row) :
    List Nat :=
  rows.filterMap (fun r =>
    if (ws ≤ trunc r.t ∧ trunc r.t ≤ we) ∧ match_line patterns r.msg = some nm then
      some (trunc r.t)
    else none)

theorem scan_fold_char (ws we : Nat) (patterns : List Pattern) (nm : String) :
    ∀ (rows : List Row) (acc : Msgs),
      dictFind (rows.foldl (scanStep ws we patterns) acc) nm =
        bumpFold (dictFind acc nm) (scanTimes ws we patterns nm rows) := by
  intro rows
  induction rows with
  | nil => intro acc; rfl
  | cons r rows ih =>
    intro acc
    rw [List.foldl_cons, ih]
    simp only [scanTimes, List.filterMap_cons]
    by_cases hw : ws ≤ trunc r.t ∧ trunc r.t ≤ we
    · cases hml : match_line patterns r.msg with
      | none =>
        rw [if_neg (fun hc => Option.noConfusion hc.2)]
        have hacc : scanStep ws we patterns acc r = acc := by
          simp only [scanStep]
          rw [if_pos hw, hml]
        rw [hacc]
      | some nm' =>
        by_cases he : nm' = nm
        · subst he
          rw [if_pos ⟨hw, rfl⟩]
          have hacc : scanStep ws we patterns acc r =
              dictSet acc nm' (bumpStats (dictFind acc nm') (trunc r.t)) := by
            simp only [scanStep]
            rw [if_pos hw, hml]
          rw [hacc, dictFind_dictSet, if_pos rfl]
          rfl
        · rw [if_neg (fun hc => he (Option.some.inj hc.2))]
          have hacc : scanStep ws we patterns acc r =
              dictSet acc nm' (bumpStats (dictFind acc nm') (trunc r.t)) := by
            simp only [scanStep]
            rw [if_pos hw, hml]
          rw [hacc, dictFind_dictSet, if_neg he]
    · rw [if_neg (fun hc => hw hc.1)]
      have hacc : scanStep ws we patterns acc r = acc := by
        simp only [scanStep]
        rw [if_neg hw]
      rw [hacc]

theorem analyzeRows_char (ws we : Nat) (patterns : List Pattern) (nm : String)
    (rows : List Row) :
    dictFind (analyzeRows ws we patterns rows) nm =
      bumpFold none (scanTimes ws we patterns nm rows) :=
  scan_fold_char ws we patterns nm rows []

theorem match_line_eq_iff (patterns : List Pattern) (msg : String) (p : Pattern)
    (hnames : (patterns.map Pattern.name).Nodup)
    (hone : ∀ q ∈ patterns, ∀ q' ∈ patterns,
      q.test msg = true → q'.test msg = true → q.name = q'.name)
    (hp : p ∈ patterns) :
    match_line patterns msg = some p.name ↔ p.test msg = true := by
  induction patterns with
  | nil => cases hp
  | cons q rest ih =>
    simp only [List.map_cons, List.nodup_cons] at hnames
    by_cases hq : q.test msg
    · simp only [match_line, if_pos hq]
      constructor
      · intro h
        have hname : q.name = p.name := Option.some.inj h
        rcases List.mem_cons.mp hp with rfl | hmem
        · exact hq
        · have : q.name ∈ List.map Pattern.name rest := by
            rw [hname]
            exact List.mem_map_of_mem Pattern.name hmem
          exact absurd this hnames.1
      · intro hpt
        exact congrArg some (hone q (by simp) p hp hq hpt)
    · simp only [match_line, if_neg hq]
      rcases List.mem_cons.mp hp with rfl | hmem
      · constructor
        · intro h
          obtain ⟨p', hp', hpn, hpt⟩ := match_line_names rest msg p.name h
          have : p.name ∈ List.map Pattern.name rest := by
            rw [← hpn]
            exact List.mem_map_of_mem Pattern.name hp'
          exact absurd this hnames.1
        · intro hpt
          exact absurd hpt hq
      · exact ih hnames.2
          (fun a ha a' ha' => hone a (by simp [ha]) a' (by simp [ha'])) hmem

theorem parquetTimes_no_prefilter (patterns : List Pattern) (p : Pattern)
    (hp : p ∈ patterns) (hci : ∀ m, p.test m = true → p.testCI m = true) :
    ∀ rows : List Row, parquetTimes patterns rows p =
      rows.filterMap (fun r => if p.test r.msg then some r.t else none) := by
  intro rows
  induction rows with
  | nil => rfl
  | cons r rest ih =>
    unfold parquetTimes at ih ⊢
    rw [List.filter_cons]
    by_cases hkeep : parquetKeep patterns r
    · rw [if_pos hkeep, List.filterMap_cons, List.filterMap_cons, ih]
    · rw [if_neg hkeep]
      have hpt : p.test r.msg = false := by
        cases hpt : p.test r.msg
        · rfl
        · refine absurd ?_ hkeep
          unfold parquetKeep
          exact List.any_eq_true.mpr ⟨p, hp, hci _ hpt⟩
      rw [ih, List.filterMap_cons]
      simp only [hpt, Bool.false_eq_true, if_false]

/-! Minimum / maximum of a timestamp list via `foldl`, and head / last of a
sorted permutation. -/

theorem foldl_min_le_init (ts : List Nat) : ∀ a, ts.foldl min a ≤ a := by
  induction ts with
  | nil => intro a; exact le_refl a
  | cons t ts ih => intro a; exact le_trans (ih (min a t)) (min_le_left a t)

theorem foldl_min_le_mem (ts : List Nat) : ∀ a x, x ∈ ts → ts.foldl min a ≤ x := by
  induction ts with
  | nil => intro a x hx; cases hx
  | cons t ts ih =>
    intro a x hx
    rcases List.mem_cons.mp hx with rfl | hx'
    · exact le_trans (foldl_min_le_init ts (min a x)) (min_le_right a x)
    · exact ih (min a t) x hx'

theorem foldl_min_mem (ts : List Nat) : ∀ a, ts.foldl min a ∈ a :: ts := by
  induction ts with
  | nil => intro a; simp
  | cons t ts ih =>
    intro a
    rw [List.foldl_cons]
    have h := ih (min a t)
    rcases List.mem_cons.mp h with h' | h'
    · rcases min_choice a t with hm | hm
      · rw [h', hm]
        simp
      · rw [h', hm]
        simp
    · exact List.mem_cons_of_mem a (List.mem_cons_of_mem t h')

theorem le_foldl_max_init (ts : List Nat) : ∀ a, a ≤ ts.foldl max a := by
  induction ts with
  | nil => intro a; exact le_refl a
  | cons t ts ih => intro a; exact le_trans (le_max_left a t) (ih (max a t))

theorem mem_le_foldl_max (ts : List Nat) : ∀ a x, x ∈ ts → x ≤ ts.foldl max a := by
  induction ts with
  | nil => intro a x hx; cases hx
  | cons t ts ih =>
    intro a x hx
    rcases List.mem_cons.mp hx with rfl | hx'
    · exact le_trans (le_max_right a x) (le_foldl_max_init ts (max a x))
    · exact ih (max a t) x hx'

theorem foldl_max_mem (ts : List Nat) : ∀ a, ts.foldl max a ∈ a :: ts := by
  induction ts with
  | nil => intro a; simp
  | cons t ts ih =>
    intro a
    rw [List.foldl_cons]
    have h := ih (max a t)
    rcases List.mem_cons.mp h with h' | h'
    · rcases max_choice a t with hm | hm
      · rw [h', hm]
        simp
      · rw [h', hm]
        simp
    · exact List.mem_cons_of_mem a (List.mem_cons_of_mem t h')

theorem le_getLastD_of_sorted :
    ∀ s : List Nat, s.Sorted (fun a b => a ≤ b) → ∀ d x, x ∈ s → x ≤ s.getLastD d := by
  intro s
  induction s with
  | nil => intro _ d x hx; cases hx
  | cons a l ih =>
    intro hs d x hx
    rw [List.getLastD_cons]
    rcases List.mem_cons.mp hx with rfl | hx'
    · cases l with
      | nil => exact le_refl x
      | cons b t =>
        have hab : x ≤ b := List.rel_of_sorted_cons hs b (by simp)
        have hb : b ≤ (b :: t).getLastD x :=
          ih ((List.pairwise_cons.mp hs).2) x b (by simp)
        exact le_trans hab hb
    · exact ih ((List.pairwise_cons.mp hs).2) a x hx'

theorem getLastD_mem : ∀ (s : List Nat) (d : Nat), s ≠ [] → s.getLastD d ∈ s := by
  intro s
  induction s with
  | nil => intro d h; cases h rfl
  | cons a l ih =>
    intro d _
    rw [List.getLastD_cons]
    cases l with
    | nil => simp [List.getLastD]
    | cons b t => exact List.mem_cons_of_mem a (ih a (by simp))

theorem parquetSummary_eq_statsOfTimes (ts : List Nat) :
    parquetSummary ts = statsOfTimes ts := by
  cases ts with
  | nil => rfl
  | cons t rest =>
    have hperm := List.perm_insertionSort (fun a b => a ≤ b) (t :: rest)
    have hsorted := List.sorted_insertionSort (fun a b => a ≤ b) (t :: rest)
    unfold parquetSummary
    rw [if_neg (by simp)]
    cases hs : (t :: rest).insertionSort (fun a b => a ≤ b) with
    | nil =>
      rw [hs] at hperm
      have := hperm.length_eq
      simp at this
    | cons a s' =>
      rw [hs] at hperm hsorted
      have hmemsort : ∀ x, x ∈ a :: s' ↔ x ∈ t :: rest := fun x => hperm.mem_iff
      simp only [statsOfTimes, Option.some.injEq, MessageStats.mk.injEq, hs]
      refine ⟨?_, ?_, ?_, ?_⟩
      · have := hperm.length_eq
        simpa using this
      · -- head of the sorted list is the running minimum
        show a = rest.foldl min t
        have hamem : a ∈ t :: rest := (hmemsort a).mp (by simp)
        have ha_le : ∀ x ∈ t :: rest, a ≤ x := by
          intro x hx
          rcases List.mem_cons.mp ((hmemsort x).mpr hx) with rfl | hx'
          · exact le_refl x
          · exact List.rel_of_sorted_cons hsorted x hx'
        have hm_mem : rest.foldl min t ∈ t :: rest := foldl_min_mem rest t
        have hm_le : ∀ x ∈ t :: rest, rest.foldl min t ≤ x := by
          intro x hx
          rcases List.mem_cons.mp hx with rfl | hx'
          · exact foldl_min_le_init rest x
          · exact foldl_min_le_mem rest t x hx'
        exact le_antisymm (ha_le _ hm_mem) (hm_le a hamem)
      · -- last of the sorted list is the running maximum
        have hL_mem : (a :: s').getLastD 0 ∈ t :: rest :=
          (hmemsort _).mp (getLastD_mem (a :: s') 0 (by simp))
        have hL_ge : ∀ x ∈ t :: rest, x ≤ (a :: s').getLastD 0 := by
          intro x hx
          exact le_getLastD_of_sorted (a :: s') hsorted 0 x ((hmemsort x).mpr hx)
        have hM_mem : rest.foldl max t ∈ t :: rest := foldl_max_mem rest t
        have hM_ge : ∀ x ∈ t :: rest, x ≤ rest.foldl max t := by
          intro x hx
          rcases List.mem_cons.mp hx with rfl | hx'
          · exact le_foldl_max_init rest x
          · exact mem_le_foldl_max rest t x hx'
        exact le_antisymm (hM_ge _ hL_mem) (hL_ge _ hM_mem)
      · exact Multiset.coe_eq_coe.mpr (hperm.map trunc)

theorem scanTimes_plain (ws we : Nat) (patterns : List Pattern) (p : Pattern)
    (rows : List Row)
    (hnames : (patterns.map Pattern.name).Nodup)
    (hone : ∀ r ∈ rows, ∀ q ∈ patterns, ∀ q' ∈ patterns,
      q.test r.msg = true → q'.test r.msg = true → q.name = q'.name)
    (haligned : ∀ r ∈ rows, r.t % 60 = 0)
    (hwin : ∀ r ∈ rows, ws ≤ r.t ∧ r.t ≤ we)
    (hp : p ∈ patterns) :
    scanTimes ws we patterns p.name rows =
      rows.filterMap (fun r => if p.test r.msg then some r.t else none) := by
  unfold scanTimes
  apply List.filterMap_congr
  intro r hr
  have htr : trunc r.t = r.t := trunc_eq_self (haligned r hr)
  have hiff := match_line_eq_iff patterns r.msg p hnames (hone r hr) hp
  by_cases hpt : p.test r.msg
  · rw [if_pos ⟨by rw [htr]; exact hwin r hr, hiff.mpr hpt⟩, if_pos hpt, htr]
  · rw [if_neg (fun hc => hpt (hiff.mp hc.2)), if_neg hpt]

/-- C1 (amended): the line-scan path and the columnar path agree — same
count, same StartTime/EndTime, same minute histogram for every pattern of
the set — provided every row's timestamp is minute-aligned and inside the
query window, no message matches two differently-named patterns, pattern
names are distinct, and the case-insensitive prefilter of the columnar
path covers the case-sensitive match (true of a real regex).  Without the
alignment hypothesis the two paths differ (see the counterexample): the
scan reads timestamps through `getTimeFromLog`, which truncates them to the
minute, while the columnar path keeps full-precision StartTime/EndTime; the
columnar path also ignores the window and books a multiply-matching row
under every matching pattern rather than the first. -/
theorem columnar_linescan_equivalence (rows : List Row) (ws we : Nat)
    (patterns : List Pattern) (p : Pattern)
    (hp : p ∈ patterns)
    (hnames : (patterns.map Pattern.name).Nodup)
    (hone : ∀ r ∈ rows, ∀ q ∈ patterns, ∀ q' ∈ patterns,
      q.test r.msg = true → q'.test r.msg = true → q.name = q'.name)
    (haligned : ∀ r ∈ rows, r.t % 60 = 0)
    (hwin : ∀ r ∈ rows, ws ≤ r.t ∧ r.t ≤ we)
    (hci : ∀ m, p.test m = true → p.testCI m = true) :
    dictFind (analyzeRows ws we patterns rows) p.name = parquetStats patterns rows p := by
  rw [analyzeRows_char, scanTimes_plain ws we patterns p rows hnames hone haligned hwin hp,
    bumpFold_none]
  unfold parquetStats
  rw [parquetTimes_no_prefilter patterns p hp hci rows, parquetSummary_eq_statsOfTimes]

/-- Demonstration pattern: the spec's `connection_error` example. -/
def patConn : Pattern :=
  ⟨"connection_error", fun m => strContains m "connection refused",
    fun m => strContains m "connection refused"⟩

/-- Demonstration pattern: the spec's `timeout` example. -/
def patTimeout : Pattern :=
  ⟨"timeout", fun m => strContains m "timeout waiting for lease",
    fun m => strContains m "timeout waiting for lease"⟩

theorem columnar_linescan_equivalence_witness :
    dictFind
        (analyzeRows 0 600 [patConn, patTimeout]
          [⟨0, "x connection refused"⟩, ⟨60, "timeout waiting for lease y"⟩,
            ⟨0, "connection refused again"⟩])
        "connection_error" =
      parquetStats [patConn, patTimeout]
        [⟨0, "x connection refused"⟩, ⟨60, "timeout waiting for lease y"⟩,
          ⟨0, "connection refused again"⟩] patConn :=
  columnar_linescan_equivalence
    [⟨0, "x connection refused"⟩, ⟨60, "timeout waiting for lease y"⟩,
      ⟨0, "connection refused again"⟩]
    0 600 [patConn, patTimeout] patConn
    (List.mem_cons_self _ _) (by decide) (by decide) (by decide) (by decide)
    (fun m h => h)

/-- C1 (counterexample): one row whose timestamp carries seconds (`t = 30`),
staged both ways, yields different StartTime/EndTime: the line-scan books
the minute truncation `0` while the columnar path keeps `30`, so the two
paths' reports differ as JSON even for a single pattern and a single
in-window row. -/
theorem columnar_linescan_cex :
    dictFind
        (analyzeRows 0 60
          [⟨"ERROR", fun m => strContains m "ERROR", fun m => strContains m "ERROR"⟩]
          [⟨30, "an ERROR here"⟩])
        "ERROR" ≠
      parquetStats
        [⟨"ERROR", fun m => strContains m "ERROR", fun m => strContains m "ERROR"⟩]
        [⟨30, "an ERROR here"⟩]
        ⟨"ERROR", fun m => strContains m "ERROR", fun m => strContains m "ERROR"⟩ := by
  decide

end LogAnalyzer
